import Mathlib

/-!
Shallow embedding of the GradeSense extraction pipeline core:
`app/services/confidence_service.py` (Confidence Recalibration Engine),
`app/services/llm_service.py` (Structuring Adapter: response parsing and
repair pass) and `app/services/extraction_service.py` (Schema Validator /
Minimal Valid Record fallback), together with the Pydantic models from
`app/models/response_models.py`.

Modelling conventions:
* Python / JSON values are the inductive type `JVal`; numbers are exact
  rationals (`ℚ`), so `85` is `JVal.num 85` and `0.5` is `JVal.num (1/2)`.
  Python `dict`s are association lists `List (String × JVal)` (keys unique
  in every dict produced by `json.loads`, which keeps the last duplicate).
* Python code that can raise is embedded in `Except String`; the error
  message text is not modelled, only which computations fail.
* `str.lower`, `str.split`, regular expressions and `datetime.strptime`
  are modelled over ASCII, matching the repository's usage.
-/

/- Rational arithmetic is used throughout the embedding; the Batteries
definitions are `@[irreducible]`, which only blocks definitional
evaluation of concrete test cases, so restore reducibility for them. -/
set_option allowUnsafeReducibility true in
attribute [semireducible] Rat.mul Rat.add Rat.sub Rat.inv Rat.ofScientific

/-- JSON-like Python value (`None`/`bool`/`int`-or-`float`/`str`/`list`/`dict`).
Finite numbers are exact rationals; the non-finite floats `nan` and
`±inf` — which `json.loads` produces for its default-accepted `NaN`,
`Infinity` and `-Infinity` literals — are separate constructors, since
they have no rational counterpart. -/
inductive JVal where
  | null
  | bool (b : Bool)
  | num (q : ℚ)
  | nan
  | inf (pos : Bool)
  | str (s : String)
  | arr (xs : List JVal)
  | obj (kvs : List (String × JVal))

/-- A Python `dict` mapping field names to values. -/
abbrev JObj := List (String × JVal)

/-- Python truthiness (`if not value`): `None`, `False`, `0`, `""`, `[]`, `{}`
are falsy, everything else truthy. -/
def pyTruthy : JVal → Bool
  | .null => false
  | .bool b => b
  | .num q => q != 0
  | .nan => true      -- bool(float('nan')) is True
  | .inf _ => true
  | .str s => s ≠ ""
  | .arr xs => !xs.isEmpty
  | .obj kvs => !kvs.isEmpty

/-- Lookup in a Python dict modelled as an association list (first match). -/
def jLookup (k : String) (kvs : JObj) : Option JVal :=
  List.lookup k kvs

/-- Python `d.get(k, default)`. -/
def jGetD (kvs : JObj) (k : String) (d : JVal) : JVal :=
  (jLookup k kvs).getD d

/-- Python numeric coercion as used by `x * 0.4`: `int`/`float` are numbers
and `bool` is an `int` subclass (`True == 1`); non-numeric operands raise
`TypeError`. The non-finite floats lie outside the exact-rational scoring
model and are mapped to the model's error (CPython instead propagates
them through the weighted sums); no claim quantifies over drafts with
non-finite confidences — C1 excludes them by hypothesis (`confOkKVs`),
and a repaired draft can only carry `NaN` there via the `json.loads`
`NaN` literal, the case settled separately under C6. -/
def asNum : JVal → Except String ℚ
  | .num q => .ok q
  | .bool b => .ok (if b then 1 else 0)
  | _ => .error "TypeError: unsupported operand type for *"

/-- Python operations requiring a `str` receiver (`value.split()`,
`value.lower()`): anything else raises `AttributeError`. -/
def asStr : JVal → Except String String
  | .str s => .ok s
  | _ => .error "AttributeError: object has no string method"

/-- ASCII whitespace as recognised by Python's `str.split()` / regex `\s`. -/
def pySpace (c : Char) : Bool :=
  c == ' ' || c == '\t' || c == '\n' || c == '\r' || c == '\x0b' || c == '\x0c'

/-- Helper for `pySplit`: accumulate the current word while scanning. -/
def pySplitGo : List Char → List Char → List String
  | acc, [] => if acc.isEmpty then [] else [String.mk acc.reverse]
  | acc, c :: rest =>
    if pySpace c then
      if acc.isEmpty then pySplitGo [] rest
      else String.mk acc.reverse :: pySplitGo [] rest
    else pySplitGo (c :: acc) rest

/-- Python `str.split()` with no argument: split on whitespace runs,
dropping empty chunks. -/
def pySplit (s : String) : List String :=
  pySplitGo [] s.toList

/-- Python `str.lower()` (ASCII case folding suffices here). -/
def pyLower (s : String) : String :=
  String.mk (s.toList.map Char.toLower)

/-- Does the character list `n` occur at the head of `h`? -/
def leadsWith : List Char → List Char → Bool
  | [], _ => true
  | _ :: _, [] => false
  | a :: as, b :: bs => a == b && leadsWith as bs

/-- Python substring test `n in h` on character lists. -/
def substrOfL (n : List Char) : List Char → Bool
  | [] => n.isEmpty
  | h@(_ :: rest) => leadsWith n h || substrOfL n rest

/-- Python substring test `n in h` on strings. -/
def substrOf (n h : String) : Bool :=
  substrOfL n.toList h.toList

/-- Mean of OCR word confidences with the code's guard:
`statistics.mean(word_confs) if word_confs else 0.5`. -/
def meanOr (l : List ℚ) : ℚ :=
  if l.isEmpty then 1/2 else l.sum / (l.length : ℚ)

/-- Rendering of an integer with at least `k+1` digits (zero padded),
used for decimal printing of rationals. -/
def padDigits (m : ℕ) (k : ℕ) : List Char :=
  let ds := (Nat.toDigits 10 m)
  (List.replicate (k + 1 - ds.length) '0') ++ ds

/-- The smallest `e ≤ 40` with `den ∣ 10 ^ e`, if any. -/
def pow10Exp (den : ℕ) : Option ℕ :=
  (List.range 41).find? (fun k => den ∣ 10 ^ k)

/-- Python `str()` of a number. Integers print without a decimal point;
other rationals print as (exact) decimals. This models Python's shortest
round-trip float `repr`, exact because `JVal.num` keeps decimal literals
as exact rationals. -/
def ratRepr (q : ℚ) : String :=
  if q.den = 1 then toString q.num
  else
    match pow10Exp q.den with
    | some k =>
      let m : ℤ := q.num * ((10 ^ k : ℕ) / q.den : ℕ)
      let ds := padDigits m.natAbs k
      let ip := ds.take (ds.length - k)
      let fp := ds.drop (ds.length - k)
      (if q.num < 0 then "-" else "") ++ String.mk ip ++ "." ++ String.mk fp
    | none => toString q.num ++ "/" ++ toString q.den

mutual
/-- Python `str(value)`. For containers this approximates Python's `repr`
layout (string escaping inside containers is not modelled; no claim
depends on container rendering). Elements of containers render as
`repr` does: strings are quoted. -/
def pyStr : JVal → String
  | .null => "None"
  | .bool true => "True"
  | .bool false => "False"
  | .num q => ratRepr q
  | .nan => "nan"
  | .inf true => "inf"
  | .inf false => "-inf"
  | .str s => s
  | .arr xs => "[" ++ pyStrList xs ++ "]"
  | .obj kvs => "\x7b" ++ pyStrKVs kvs ++ "\x7d"
termination_by structural v => v

/-- Comma-separated reprs of list elements. -/
def pyStrList : List JVal → String
  | [] => ""
  | [x] => (match x with | .str s => "'" ++ s ++ "'" | y => pyStr y)
  | x :: rest =>
    (match x with | .str s => "'" ++ s ++ "'" | y => pyStr y) ++ ", " ++ pyStrList rest
termination_by structural l => l

/-- Comma-separated reprs of dict entries. -/
def pyStrKVs : List (String × JVal) → String
  | [] => ""
  | [(k, v)] => "'" ++ k ++ "': " ++ (match v with | .str s => "'" ++ s ++ "'" | y => pyStr y)
  | (k, v) :: rest =>
    "'" ++ k ++ "': " ++ (match v with | .str s => "'" ++ s ++ "'" | y => pyStr y) ++
      ", " ++ pyStrKVs rest
termination_by structural l => l
end

/-- Python `repr(value)`: like `str` but strings are quoted. -/
def pyRepr : JVal → String
  | .str s => "'" ++ s ++ "'"
  | v => pyStr v

/-! ## Regular-expression model

A small regex AST covering the constructs used by the pattern table in
`ConfidenceService.__init__` (`confidence_service.py` lines 28-60):
character classes, concatenation, alternation, bounded repetition `{m,n}`
(encoded by unrolling), `?`/`+`/`*`, and the word boundary `\b`.
All patterns are applied with `re.IGNORECASE`, so character classes and
literals below are already case-insensitive where letters are involved. -/

/-- Regex abstract syntax. -/
inductive Rx where
  | eps
  | cls (f : Char → Bool)
  | seq (a b : Rx)
  | alt (a b : Rx)
  | star (a : Rx)
  | wb

/-- Concatenation of a list of regexes. -/
def rxSeq (l : List Rx) : Rx := l.foldr .seq .eps

/-- Optional element (`r?`). -/
def rxOpt (r : Rx) : Rx := .alt r .eps

/-- Bounded repetition `r{lo,hi}`, unrolled as `lo` copies then `hi - lo`
optional copies. -/
def rxRep (r : Rx) (lo hi : ℕ) : Rx :=
  rxSeq (List.replicate lo r ++ List.replicate (hi - lo) (rxOpt r))

/-- One-or-more (`r+`), as `r r*`. -/
def rxPlus (r : Rx) : Rx := .seq r (.star r)

/-- Regex word character (`\w` over ASCII: letters, digits, underscore). -/
def wordCh (c : Char) : Bool := c.isAlpha || c.isDigit || c == '_'

/-- Word boundary test between an optional previous character and the rest
of the input. -/
def isWB (p : Option Char) (s : List Char) : Bool :=
  (match p with | some c => wordCh c | none => false)
    != (match s with | c :: _ => wordCh c | [] => false)

/-- Size of a regex, used to compute a sufficient matching fuel. -/
def rxSize : Rx → ℕ
  | .eps => 1
  | .cls _ => 1
  | .seq a b => rxSize a + rxSize b + 1
  | .alt a b => rxSize a + rxSize b + 1
  | .star a => rxSize a + 1
  | .wb => 1

/-- Nondeterministic matcher. `mtch fuel r p s` returns the possible
`(last consumed char, remaining input)` pairs after matching `r` at the
head of `s`, where `p` is the character just before `s` (for `\b`).
Star iterations are required to consume input, so the fuel computed by
`rsearch` is always sufficient. -/
def mtch : ℕ → Rx → Option Char → List Char → List (Option Char × List Char)
  | 0, _, _, _ => []
  | f + 1, rx, p, s =>
    match rx with
    | .eps => [(p, s)]
    | .cls g =>
      match s with
      | [] => []
      | c :: rest => if g c then [(some c, rest)] else []
    | .wb => if isWB p s then [(p, s)] else []
    | .seq a b => (mtch f a p s).flatMap (fun r => mtch f b r.1 r.2)
    | .alt a b => mtch f a p s ++ mtch f b p s
    | .star a =>
      (p, s) ::
        ((mtch f a p s).filter (fun r => r.2.length < s.length)).flatMap
          (fun r => mtch f (.star a) r.1 r.2)

/-- Model of `re.search(pattern, s, re.IGNORECASE)`: the pattern matches
starting at some position of `s`. -/
def rsearch (r : Rx) (s : String) : Bool :=
  let cs := s.toList
  let fuel := (rxSize r + 2) * (cs.length + 2) + 16
  (List.range (cs.length + 1)).any (fun i =>
    !(mtch fuel r (if i = 0 then none else cs.get? (i - 1)) (cs.drop i)).isEmpty)

/-- Class `\d`. -/
def dCls : Rx := .cls Char.isDigit

/-- Class `[A-Z]` under `re.IGNORECASE` (hence any ASCII letter). -/
def azCls : Rx := .cls Char.isAlpha

/-- Class `\s`. -/
def wsCls : Rx := .cls pySpace

/-- Case-insensitive literal character. -/
def litCI (c : Char) : Rx := .cls (fun x => x.toLower == c.toLower)

/-- Case-insensitive literal word. -/
def wordCI (s : String) : Rx := rxSeq (s.toList.map litCI)

/-- Literal character matched exactly (non-letters, unaffected by case). -/
def litC (c : Char) : Rx := .cls (fun x => x == c)

/-- Pattern table `self.patterns` from `ConfidenceService.__init__`,
transcribed regex by regex (comments give the Python source literal). -/
def patternsFor (ptype : String) : List Rx :=
  if ptype = "roll_number" then
    [ rxSeq [.wb, rxRep dCls 4 12, .wb],                        -- \b\d{4,12}\b
      rxSeq [.wb, rxRep azCls 1 3, rxRep dCls 4 8, .wb],        -- \b[A-Z]{1,3}\d{4,8}\b
      rxSeq [.wb, rxRep dCls 2 2, rxRep azCls 2 2, rxRep dCls 4 6, .wb] ]
                                                                -- \b\d{2}[A-Z]{2}\d{4,6}\b
  else if ptype = "registration_number" then
    [ rxSeq [.wb, rxRep azCls 2 4, rxRep dCls 6 10, .wb],       -- \b[A-Z]{2,4}\d{6,10}\b
      rxSeq [.wb, rxRep dCls 4 6, litC '/', rxRep dCls 2 4, .wb],
                                                                -- \b\d{4,6}/\d{2,4}\b
      rxSeq [.wb, wordCI "REG", rxRep dCls 6 10, .wb] ]         -- \bREG\d{6,10}\b
  else if ptype = "date" then
    [ rxSeq [.wb, rxRep dCls 1 2, .cls (fun c => c == '-' || c == '/'),
             rxRep dCls 1 2, .cls (fun c => c == '-' || c == '/'), rxRep dCls 4 4, .wb],
                                                                -- \b\d{1,2}[-/]\d{1,2}[-/]\d{4}\b
      rxSeq [.wb, rxRep dCls 4 4, .cls (fun c => c == '-' || c == '/'),
             rxRep dCls 1 2, .cls (fun c => c == '-' || c == '/'), rxRep dCls 1 2, .wb],
                                                                -- \b\d{4}[-/]\d{1,2}[-/]\d{1,2}\b
      rxSeq [.wb, rxRep dCls 1 2, rxPlus wsCls, rxRep azCls 3 9, rxPlus wsCls,
             rxRep dCls 4 4, .wb] ]                             -- \b\d{1,2}\s+[A-Za-z]{3,9}\s+\d{4}\b
  else if ptype = "percentage" then
    [ rxSeq [.wb, rxRep dCls 1 3, litC '.', rxRep dCls 1 2, rxOpt (litC '%'), .wb],
                                                                -- \b\d{1,3}\.\d{1,2}%?\b
      rxSeq [.wb, rxRep dCls 1 3, litC '%', .wb] ]              -- \b\d{1,3}%\b
  else if ptype = "grade" then
    [ rxSeq [.wb, .cls (fun c => 'a' ≤ c.toLower && c.toLower ≤ 'f'),
             rxOpt (.cls (fun c => c == '+' || c == '-')), .wb],
                                                                -- \b[A-F][+-]?\b
      rxSeq [.wb, wordCI "First", rxPlus wsCls, wordCI "Division", .wb],
      rxSeq [.wb, wordCI "Second", rxPlus wsCls, wordCI "Division", .wb],
      rxSeq [.wb, wordCI "Third", rxPlus wsCls, wordCI "Division", .wb],
      rxSeq [.wb, wordCI "Pass", .wb],                          -- \bPass\b
      rxSeq [.wb, wordCI "Fail", .wb] ]                         -- \bFail\b
  else if ptype = "marks" then
    [ rxSeq [.wb, rxRep dCls 1 3, .star wsCls, litC '/', .star wsCls, rxRep dCls 1 3, .wb],
                                                                -- \b\d{1,3}\s*/\s*\d{1,3}\b
      rxSeq [.wb, rxRep dCls 1 3, .wb] ]                        -- \b\d{1,3}\b
  else []  -- self.patterns.get(pattern_type, [])

/-! ## Model of `datetime.strptime` for the four formats used

`_calculate_date_confidence` tries the formats `%Y-%m-%d`, `%d/%m/%Y`,
`%d-%m-%Y`, `%d %B %Y`. CPython compiles these to regexes: `%Y` is exactly
four digits, `%m` is `1[0-2]|0[1-9]|[1-9]`, `%d` is `3[01]|[12]\d|0[1-9]|[1-9]`,
`%B` a full month name (case-insensitive), and whitespace matches `\s+`;
the whole string must be consumed and the resulting date must construct
(month length and leap years checked, year in 1..9999). -/

/-- Token of a strptime format string. -/
inductive FTok where
  | y4            -- %Y
  | m2            -- %m
  | d2            -- %d
  | bmon          -- %B
  | lit (c : Char)
  | ws            -- whitespace in the format

/-- Partial parsed date. -/
structure DParts where
  y : ℕ := 0
  m : ℕ := 0
  d : ℕ := 0

/-- Numeric value of a run of ASCII digits. -/
def digitsVal (cs : List Char) : ℕ :=
  cs.foldl (fun a c => a * 10 + (c.toNat - '0'.toNat)) 0

/-- Full month names for `%B`. -/
def monthNames : List (ℕ × String) :=
  [(1, "january"), (2, "february"), (3, "march"), (4, "april"),
   (5, "may"), (6, "june"), (7, "july"), (8, "august"),
   (9, "september"), (10, "october"), (11, "november"), (12, "december")]

/-- All ways to consume `1..n` whitespace characters (for `\s+`). -/
def wsSplits : List Char → List (List Char)
  | [] => []
  | c :: rest => if pySpace c then rest :: wsSplits rest else []

/-- Match one format token, returning the possible `(parts, remainder)`. -/
def matchFTok (t : FTok) (acc : DParts) (s : List Char) : List (DParts × List Char) :=
  match t with
  | .y4 =>
    match s with
    | a :: b :: c :: d :: rest =>
      if a.isDigit && b.isDigit && c.isDigit && d.isDigit then
        [({ acc with y := digitsVal [a, b, c, d] }, rest)]
      else []
    | _ => []
  | .m2 =>
    (match s with
     | a :: b :: rest =>
       if a.isDigit && b.isDigit && 1 ≤ digitsVal [a, b] && digitsVal [a, b] ≤ 12 then
         [({ acc with m := digitsVal [a, b] }, rest)]
       else []
     | _ => []) ++
    (match s with
     | a :: rest =>
       if a.isDigit && 1 ≤ digitsVal [a] then [({ acc with m := digitsVal [a] }, rest)]
       else []
     | _ => [])
  | .d2 =>
    (match s with
     | a :: b :: rest =>
       if a.isDigit && b.isDigit && 1 ≤ digitsVal [a, b] && digitsVal [a, b] ≤ 31 then
         [({ acc with d := digitsVal [a, b] }, rest)]
       else []
     | _ => []) ++
    (match s with
     | a :: rest =>
       if a.isDigit && 1 ≤ digitsVal [a] then [({ acc with d := digitsVal [a] }, rest)]
       else []
     | _ => [])
  | .bmon =>
    monthNames.filterMap (fun nm =>
      if leadsWith nm.2.toList (s.map Char.toLower) then
        some ({ acc with m := nm.1 }, s.drop nm.2.length)
      else none)
  | .lit c => match s with
    | x :: rest => if x == c then [(acc, rest)] else []
    | [] => []
  | .ws => (wsSplits s).map (fun rest => (acc, rest))

/-- Match a whole format token list. -/
def matchFToks : List FTok → DParts → List Char → List (DParts × List Char)
  | [], acc, s => [(acc, s)]
  | t :: rest, acc, s =>
    (matchFTok t acc s).flatMap (fun r => matchFToks rest r.1 r.2)

/-- Leap year rule of the proleptic Gregorian calendar. -/
def isLeap (y : ℕ) : Bool :=
  (y % 4 == 0 && y % 100 != 0) || y % 400 == 0

/-- Days in a month. -/
def daysInMonth (y m : ℕ) : ℕ :=
  if m = 2 then (if isLeap y then 29 else 28)
  else if m = 4 || m = 6 || m = 9 || m = 11 then 30
  else 31

/-- Can `datetime(y, m, d)` be constructed? -/
def validDate (p : DParts) : Bool :=
  1 ≤ p.y && p.y ≤ 9999 && 1 ≤ p.m && p.m ≤ 12 && 1 ≤ p.d && p.d ≤ daysInMonth p.y p.m

/-- Does `datetime.strptime(s, fmt)` succeed for the format `toks`? -/
def strptimeOk (toks : List FTok) (s : String) : Bool :=
  (matchFToks toks {} s.toList).any (fun r => r.2.isEmpty && validDate r.1)

/-- The four formats tried by `_calculate_date_confidence`
(`['%Y-%m-%d', '%d/%m/%Y', '%d-%m-%Y', '%d %B %Y']`). -/
def dateFormats : List (List FTok) :=
  [ [.y4, .lit '-', .m2, .lit '-', .d2],
    [.d2, .lit '/', .m2, .lit '/', .y4],
    [.d2, .lit '-', .m2, .lit '-', .y4],
    [.d2, .ws, .bmon, .ws, .y4] ]

/-! ## Model of Python `float(value)` as used by `_calculate_marks_confidence` -/

/-- Result of Python `float()` conversion. -/
inductive FloatRes where
  | val (q : ℚ)
  | posInf
  | negInf
  | nan
  | fail

/-- Consume leading ASCII digits. -/
def takeDigits (cs : List Char) : List Char × List Char :=
  match cs with
  | c :: rest =>
    if c.isDigit then
      let (ds, r) := takeDigits rest
      (c :: ds, r)
    else ([], cs)
  | [] => ([], [])

/-- Parse the body of a float literal (after the sign):
`digits [. digits] [e [sign] digits]`, also `.digits`. -/
def parseFloatBody (cs : List Char) : Option ℚ :=
  let (ip, r1) := takeDigits cs
  let (fp, r2) :=
    match r1 with
    | '.' :: rest => takeDigits rest
    | _ => ([], r1)
  if ip.isEmpty && fp.isEmpty then none
  else
    let mant : ℚ := (digitsVal ip : ℚ) + (digitsVal fp : ℚ) / ((10 : ℚ) ^ fp.length)
    let hadDot := match r1 with | '.' :: _ => true | _ => false
    let r2' := if hadDot then r2 else r1
    match r2' with
    | [] => some mant
    | e :: rest =>
      if e == 'e' || e == 'E' then
        let (sgn, rest2) :=
          match rest with
          | '+' :: r => ((1 : ℤ), r)
          | '-' :: r => ((-1 : ℤ), r)
          | _ => ((1 : ℤ), rest)
        let (ed, rest3) := takeDigits rest2
        if ed.isEmpty || !rest3.isEmpty then none
        else some (mant * (10 : ℚ) ^ (sgn * (digitsVal ed : ℤ)))
      else none

/-- Python `float(str)`: strips surrounding whitespace, accepts an optional
sign, decimal/exponent literals, and `inf`/`infinity`/`nan`
(case-insensitive). Digit-group underscores are not modelled. -/
def pyFloatOfStr (s : String) : FloatRes :=
  let cs := (s.toList.dropWhile pySpace).reverse.dropWhile pySpace |>.reverse
  let low := cs.map Char.toLower
  let (neg, body) :=
    match low with
    | '+' :: r => (false, r)
    | '-' :: r => (true, r)
    | r => (false, r)
  if body = "inf".toList || body = "infinity".toList then
    if neg then .negInf else .posInf
  else if body = "nan".toList then .nan
  else
    match parseFloatBody body with
    | some q => .val (if neg then -q else q)
    | none => .fail

/-- Python `float(value)` for a JSON value (`TypeError`/`ValueError` → `fail`).
`float(True) = 1.0`, `float(None)` raises. -/
def pyFloat : JVal → FloatRes
  | .num q => .val q
  | .bool b => .val (if b then 1 else 0)
  | .nan => .nan
  | .inf pos => if pos then .posInf else .negInf
  | .str s => pyFloatOfStr s
  | _ => .fail

/-! ## Confidence Recalibration Engine (`confidence_service.py`)

The five scoring functions. Each takes the leaf's `value` and the raw
`confidence` entry (`original_confidence`, default `0.5` supplied by the
caller) and returns the recalibrated score, or an error when the Python
code would raise (e.g. `value.split()` on a non-string, or multiplying a
non-numeric confidence by a float); such errors are caught only at the
top level of `calculate_confidence_scores`. -/

/-- Does the value match `^[A-Za-z\s\.]+$` under `re.match` (anchored both
ends; `\n` is itself in `\s`, so this is exactly: non-empty and every
character a letter, whitespace or period)? -/
def namePatternOk (s : String) : Bool :=
  s ≠ "" && s.toList.all (fun c => c.isAlpha || pySpace c || c == '.')

/-- `ConfidenceService._calculate_name_confidence` (lines 282-315). -/
def calculate_name_confidence (value oc : JVal) (ocr : List (String × ℚ))
    (txt : String) : Except String ℚ :=
  if !pyTruthy value || (match value with | .str s => s == "Unknown" | _ => false) then
    .ok 0
  else do
    let s ← asStr value                 -- value.split(), value.lower(), re.match need str
    let base ← asNum oc                 -- base_conf * 0.4
    let wordConfs := (pySplit s).map (fun w => (List.lookup w ocr).getD (1/2))
    let avgOcr := meanOr wordConfs
    let presence : ℚ := if substrOf (pyLower s) (pyLower txt) then 1 else 3/10
    let patConf : ℚ := if namePatternOk s then 8/10 else 4/10
    .ok (base * (4/10) + avgOcr * (3/10) + presence * (2/10) + patConf * (1/10))

/-- `ConfidenceService._calculate_pattern_confidence` (lines 317-351). -/
def calculate_pattern_confidence (value : JVal) (ptype : String) (oc : JVal)
    (txt : String) : Except String ℚ :=
  if !pyTruthy value then .ok 0
  else do
    let base ← asNum oc
    let vs := pyStr value
    let patConf : ℚ := if (patternsFor ptype).any (fun p => rsearch p vs) then 9/10 else 1/10
    let presence : ℚ := if substrOf (pyLower vs) (pyLower txt) then 1 else 2/10
    .ok (base * (4/10) + patConf * (4/10) + presence * (2/10))

/-- Format component of `_calculate_date_confidence`: `0.9` when one of
the four `strptime` formats parses the value, `0.1` otherwise (also for
non-strings, where `strptime` raises `TypeError`, which escapes the inner
`except ValueError` but is swallowed by the outer bare `except`). -/
def dateFormatConf : JVal → ℚ
  | .str s => if dateFormats.any (fun f => strptimeOk f s) then 9/10 else 1/10
  | _ => 1/10

/-- `ConfidenceService._calculate_date_confidence` (lines 353-392). -/
def calculate_date_confidence (value oc : JVal) (txt : String) : Except String ℚ :=
  if !pyTruthy value then .ok 0
  else do
    let base ← asNum oc
    let patConf ← calculate_pattern_confidence value "date" oc txt
    .ok (base * (3/10) + dateFormatConf value * (4/10) + patConf * (3/10))

/-- Numeric component of `_calculate_marks_confidence`: `0.9` for a value
`float()`-convertible into `[0, 1000]`, `0.5` above `1000` (including
`float('inf')`), `0.1` otherwise (`NaN` comparisons are false). -/
def marksNumericConf (value : JVal) : ℚ :=
  match pyFloat value with
  | .val q => if 0 ≤ q ∧ q ≤ 1000 then 9/10 else if 1000 < q then 5/10 else 1/10
  | .posInf => 5/10
  | .negInf => 1/10
  | .nan => 1/10
  | .fail => 1/10

/-- `ConfidenceService._calculate_marks_confidence` (lines 394-429).
Note the presence check here is case-sensitive (`value_str in original_text`). -/
def calculate_marks_confidence (value oc : JVal) (txt : String) : Except String ℚ :=
  if (match value with | .null => true | _ => false) then .ok 0
  else do
    let base ← asNum oc
    let presence : ℚ := if substrOf (pyStr value) txt then 1 else 3/10
    .ok (base * (4/10) + marksNumericConf value * (4/10) + presence * (2/10))

/-- `ConfidenceService._calculate_text_confidence` (lines 431-460).
`str(value).split()` is safe for any value, but the presence check calls
`value.lower()` directly, raising on non-strings. -/
def calculate_text_confidence (value oc : JVal) (ocr : List (String × ℚ))
    (txt : String) : Except String ℚ :=
  if !pyTruthy value then .ok 0
  else do
    let base ← asNum oc
    let wordConfs := (pySplit (pyStr value)).map (fun w => (List.lookup w ocr).getD (1/2))
    let avgOcr := meanOr wordConfs
    let s ← asStr value                 -- value.lower()
    let presence : ℚ := if substrOf (pyLower s) (pyLower txt) then 1 else 2/10
    .ok (base * (5/10) + avgOcr * (3/10) + presence * (2/10))

/-! ## Section processors -/

/-- Is the entry content a dict containing a `value` key
(`isinstance(data, dict) and 'value' in data`)? Entries failing this are
skipped (`continue`). -/
def wfLeaf : JVal → Bool
  | .obj kvs => kvs.any (fun kv => kv.1 == "value")
  | _ => false

/-- The leaf's entries, when it is a dict. -/
def leafEntries : JVal → JObj
  | .obj kvs => kvs
  | _ => []

/-- Shared loop body of the four `_process_*` section walkers: for each
field, skip malformed entries, read `value` and `confidence` (default
`0.5`), dispatch to the field type's scoring function, and rebuild the
leaf as `{'value': value, 'confidence': min(enhanced_conf, 1.0)}`. -/
def processFields (dispatch : String → JVal → JVal → Except String ℚ) :
    JObj → Except String JObj
  | [] => .ok []
  | (k, v) :: rest =>
    if wfLeaf v then do
      let value := jGetD (leafEntries v) "value" .null   -- present by wfLeaf
      let oc := jGetD (leafEntries v) "confidence" (.num (1/2))
      let conf ← dispatch k value oc
      let rest' ← processFields dispatch rest
      .ok ((k, .obj [("value", value), ("confidence", .num (min conf 1))]) :: rest')
    else processFields dispatch rest

/-- Field-type dispatch of `_process_candidate_details` (lines 130-164). -/
def cdDispatch (ocr : List (String × ℚ)) (txt : String)
    (field : String) (value oc : JVal) : Except String ℚ :=
  if field = "name" || field = "father_name" || field = "mother_name" then
    calculate_name_confidence value oc ocr txt
  else if field = "roll_no" then
    calculate_pattern_confidence value "roll_number" oc txt
  else if field = "registration_no" then
    calculate_pattern_confidence value "registration_number" oc txt
  else if field = "dob" then
    calculate_date_confidence value oc txt
  else
    calculate_text_confidence value oc ocr txt

/-- Field-type dispatch of `_process_subjects` (lines 176-206). -/
def subjDispatch (ocr : List (String × ℚ)) (txt : String)
    (field : String) (value oc : JVal) : Except String ℚ :=
  if field = "obtained_marks" || field = "max_marks" then
    calculate_marks_confidence value oc txt
  else if field = "grade" then
    calculate_pattern_confidence value "grade" oc txt
  else
    calculate_text_confidence value oc ocr txt

/-- Field-type dispatch of `_process_overall_result` (lines 208-247). -/
def ovrDispatch (ocr : List (String × ℚ)) (txt : String)
    (field : String) (value oc : JVal) : Except String ℚ :=
  if field = "percentage" then
    calculate_pattern_confidence value "percentage" oc txt
  else if field = "result" || field = "grade" then
    calculate_pattern_confidence value "grade" oc txt
  else if field = "total_marks" || field = "max_total_marks" then
    calculate_marks_confidence value oc txt
  else
    calculate_text_confidence value oc ocr txt

/-- Field-type dispatch of `_process_document_info` (lines 249-280). -/
def diDispatch (ocr : List (String × ℚ)) (txt : String)
    (field : String) (value oc : JVal) : Except String ℚ :=
  if field = "issue_date" then
    calculate_date_confidence value oc txt
  else
    calculate_text_confidence value oc ocr txt

/-- `_process_candidate_details`: iterating `.items()` of a non-dict section
raises (caught only at top level). -/
def process_candidate_details (j : JVal) (ocr : List (String × ℚ))
    (txt : String) : Except String JObj :=
  match j with
  | .obj kvs => processFields (cdDispatch ocr txt) kvs
  | _ => .error "AttributeError: no .items()"

/-- `_process_overall_result`. -/
def process_overall_result (j : JVal) (ocr : List (String × ℚ))
    (txt : String) : Except String JObj :=
  match j with
  | .obj kvs => processFields (ovrDispatch ocr txt) kvs
  | _ => .error "AttributeError: no .items()"

/-- `_process_document_info`. -/
def process_document_info (j : JVal) (ocr : List (String × ℚ))
    (txt : String) : Except String JObj :=
  match j with
  | .obj kvs => processFields (diDispatch ocr txt) kvs
  | _ => .error "AttributeError: no .items()"

/-- One subject record of `_process_subjects`: `subject.items()` requires a
dict. -/
def processSubject (ocr : List (String × ℚ)) (txt : String) :
    JVal → Except String JVal
  | .obj kvs => (processFields (subjDispatch ocr txt) kvs).map .obj
  | _ => .error "AttributeError: no .items()"

/-- Loop of `_process_subjects` over the subject list, appending the
processed records in order. -/
def processSubjectsList (ocr : List (String × ℚ)) (txt : String) :
    List JVal → Except String (List JVal)
  | [] => .ok []
  | s :: rest => do
    let s' ← processSubject ocr txt s
    let rest' ← processSubjectsList ocr txt rest
    .ok (s' :: rest')

/-- `_process_subjects` (lines 166-206). Iterating a non-list raises unless
the iterable is empty (iterating an empty dict or empty string runs the
loop body zero times); iterating a non-empty dict or string yields
non-dict elements whose `.items()` raises. -/
def process_subjects (j : JVal) (ocr : List (String × ℚ))
    (txt : String) : Except String (List JVal) :=
  match j with
  | .arr xs => processSubjectsList ocr txt xs
  | .obj kvs => if kvs.isEmpty then .ok [] else .error "AttributeError: str has no .items()"
  | .str s => if s = "" then .ok [] else .error "AttributeError: str has no .items()"
  | _ => .error "TypeError: not iterable"

/-- Body of `calculate_confidence_scores`' `try` block (lines 79-113):
process the four sections in order and assemble `enhanced_data`. -/
def calculate_confidence_scores_core (d : JObj) (ocr : List (String × ℚ))
    (txt : String) : Except String JObj := do
  let cd ← process_candidate_details (jGetD d "candidate_details" (.obj [])) ocr txt
  let ss ← process_subjects (jGetD d "subjects" (.arr [])) ocr txt
  let ovr ← process_overall_result (jGetD d "overall_result" (.obj [])) ocr txt
  let di ← process_document_info (jGetD d "document_info" (.obj [])) ocr txt
  .ok [("candidate_details", .obj cd), ("subjects", .arr ss),
       ("overall_result", .obj ovr), ("document_info", .obj di)]

/-- `ConfidenceService.calculate_confidence_scores` (lines 62-118): any
exception from scoring the record is caught and the original
`structured_data` is returned unmodified. -/
def calculate_confidence_scores (d : JObj) (ocr : List (String × ℚ))
    (txt : String) : JObj :=
  match calculate_confidence_scores_core d ocr txt with
  | .ok r => r
  | .error _ => d

/-! ## Structuring Adapter repair pass (`llm_service.py` lines 235-266) -/

/-- Python numeric confidence check of `_validate_confidence_scores`:
the leaf is left unclamped iff
`isinstance(conf, (int, float)) and not (conf < 0) and not (conf > 1)`.
`bool` is an `int` subclass, and both `True` (1) and `False` (0) pass.
A float `NaN` also passes: it is an instance of `float` and both
comparisons `conf < 0` and `conf > 1` are false, so the code does NOT
clamp it; `±Infinity` fails a comparison and is clamped. -/
def pyNum01 : JVal → Bool
  | .num q => 0 ≤ q && q ≤ 1
  | .bool _ => true
  | .nan => true
  | .inf _ => false
  | _ => false

/-- Does a dict have a `confidence` key? -/
def hasConfKey (kvs : JObj) : Bool :=
  kvs.any (fun kv => kv.1 == "confidence")

/-- Clamp step applied to a dict that contains a `confidence` key:
replace an invalid confidence by `0.0`, leave every other entry alone
(the walk does not descend further into such a dict). -/
def clampEntries (kvs : JObj) : JObj :=
  kvs.map (fun kv =>
    if kv.1 == "confidence" && !pyNum01 kv.2 then (kv.1, .num 0) else kv)

mutual
/-- `validate_recursive` inside `_validate_confidence_scores` (lines
252-266): a dict containing a `confidence` key is treated as a leaf and
only its confidence is fixed; other dicts and lists are walked. -/
def clampWalk : JVal → JVal
  | .obj kvs => if hasConfKey kvs then .obj (clampEntries kvs) else .obj (clampWalkKVs kvs)
  | .arr xs => .arr (clampWalkList xs)
  | v => v
termination_by structural v => v

/-- Walk the values of a dict without a `confidence` key. -/
def clampWalkKVs : JObj → JObj
  | [] => []
  | (k, v) :: rest => (k, clampWalk v) :: clampWalkKVs rest
termination_by structural l => l

/-- Walk the items of a list. -/
def clampWalkList : List JVal → List JVal
  | [] => []
  | v :: rest => clampWalk v :: clampWalkList rest
termination_by structural l => l
end

/-- The four required top-level sections. -/
def requiredSections : List String :=
  ["candidate_details", "subjects", "overall_result", "document_info"]

/-- Section-insertion loop of `_validate_structure` (lines 237-241):
`data[section] = {}` for each missing section, appended in iteration
order (CPython dicts preserve insertion order). -/
def insertSections (kvs : JObj) : JObj :=
  requiredSections.foldl
    (fun acc s => if (List.lookup s acc).isSome then acc else acc ++ [(s, .obj [])])
    kvs

/-- Is the value a Python list? -/
def isArr : JVal → Bool
  | .arr _ => true
  | _ => false

/-- Subjects coercion of `_validate_structure` (lines 244-245):
`data['subjects'] = []` when it is not a list, replacing in place. -/
def coerceSubjects (kvs : JObj) : JObj :=
  kvs.map (fun kv =>
    if kv.1 == "subjects" && !isArr kv.2 then (kv.1, .arr []) else kv)

/-- `LLMService._validate_structure` (lines 235-248): insert missing
sections, coerce `subjects` to a list, then run the confidence clamp walk
over the whole record. Never fails. -/
def validate_structure (kvs : JObj) : JObj :=
  let d1 := coerceSubjects (insertSections kvs)
  match clampWalk (.obj d1) with
  | .obj out => out
  | _ => d1    -- unreachable: clampWalk maps dicts to dicts

/-! ## Strict JSON parsing (model of `json.loads`)

A recursive-descent parser for the JSON grammar accepted by
`json.loads` with default options: strict numbers (no leading zeros),
strings with escapes, arrays, objects (duplicate keys: the last value
wins, the key keeps its first position, as CPython dicts do), `true`,
`false`, `null`, the non-standard constants `NaN`, `Infinity` and
`-Infinity` (accepted by default), and no trailing data. `\u` surrogate
pairing is not modelled. -/

/-- JSON whitespace. -/
def jsonWs (c : Char) : Bool :=
  c == ' ' || c == '\t' || c == '\n' || c == '\r'

/-- Insert a key/value pair into an object with CPython dict semantics:
replace the value in place if the key exists, else append. -/
def objInsert (k : String) (v : JVal) (kvs : JObj) : JObj :=
  if (List.lookup k kvs).isSome then
    kvs.map (fun kv => if kv.1 == k then (k, v) else kv)
  else kvs ++ [(k, v)]

/-- Parse a hexadecimal digit. -/
def hexVal (c : Char) : Option ℕ :=
  if c.isDigit then some (c.toNat - '0'.toNat)
  else if 'a' ≤ c.toLower && c.toLower ≤ 'f' then some (c.toLower.toNat - 'a'.toNat + 10)
  else none

/-- Single-character JSON escapes. -/
def escChar : Char → Option Char
  | '"' => some '"'
  | '\\' => some '\\'
  | '/' => some '/'
  | 'b' => some '\x08'
  | 'f' => some '\x0c'
  | 'n' => some '\n'
  | 'r' => some '\r'
  | 't' => some '\t'
  | _ => none

/-- Worker for `parseJStr`, accumulating decoded characters. -/
def parseJStrGo : List Char → List Char → Option (String × List Char)
  | _, [] => none
  | acc, '"' :: rest => some (String.mk acc.reverse, rest)
  | acc, '\\' :: e :: rest =>
    if e == 'u' then
      match rest with
      | a :: b :: c :: d :: rest2 =>
        (match hexVal a, hexVal b, hexVal c, hexVal d with
         | some x, some y, some z, some w =>
           let n := ((x * 16 + y) * 16 + z) * 16 + w
           if 0xd800 ≤ n && n ≤ 0xdfff then none   -- surrogates unmodelled
           else parseJStrGo (Char.ofNat n :: acc) rest2
         | _, _, _, _ => none)
      | _ => none
    else
      match escChar e with
      | some ch => parseJStrGo (ch :: acc) rest
      | none => none
  | acc, c :: rest => if c.toNat < 0x20 then none else parseJStrGo (c :: acc) rest

/-- Parse the remainder of a JSON string literal (after the opening quote). -/
def parseJStr (cs : List Char) : Option (String × List Char) :=
  parseJStrGo [] cs

/-- Parse a strict JSON number: `-?(0|[1-9][0-9]*)(\.[0-9]+)?([eE][+-]?[0-9]+)?`. -/
def parseJNum (cs : List Char) : Option (ℚ × List Char) :=
  let (neg, cs1) := match cs with | '-' :: r => (true, r) | r => (false, r)
  let (ip, cs2) := takeDigits cs1
  if ip.isEmpty then none
  else if ip.length > 1 && ip.headD '0' == '0' then none  -- no leading zeros
  else
    let (fp, cs3) :=
      match cs2 with
      | '.' :: r =>
        let (ds, r2) := takeDigits r
        (ds, if ds.isEmpty then [] else r2)
      | _ => ([], cs2)
    match cs2, fp with
    | '.' :: _, [] => none       -- a bare '1.' is invalid JSON
    | _, _ =>
      let mant : ℚ := (digitsVal ip : ℚ) + (digitsVal fp : ℚ) / ((10 : ℚ) ^ fp.length)
      let mant := if neg then -mant else mant
      match cs3 with
      | e :: r =>
        if e == 'e' || e == 'E' then
          let (sgn, r2) : ℤ × List Char :=
            match r with
            | '+' :: r3 => (1, r3)
            | '-' :: r3 => (-1, r3)
            | _ => (1, r)
          let (ed, r3) := takeDigits r2
          if ed.isEmpty then none
          else some (mant * (10 : ℚ) ^ (sgn * (digitsVal ed : ℤ)), r3)
        else some (mant, cs3)
      | [] => some (mant, [])

mutual
/-- Parse one JSON value (fuel-based recursion; fuel is decremented on each
nested value, and `jsonLoads` supplies more fuel than any input can need). -/
def parseJVal : ℕ → List Char → Option (JVal × List Char)
  | 0, _ => none
  | fuel + 1, cs =>
    match cs.dropWhile jsonWs with
    | [] => none
    | c :: rest =>
      if c == '{' then parseJObjBody fuel (rest.dropWhile jsonWs) []
      else if c == '[' then parseJArrBody fuel (rest.dropWhile jsonWs) []
      else if c == '"' then (parseJStr rest).map (fun r => (.str r.1, r.2))
      else if leadsWith "true".toList (c :: rest) then some (.bool true, (c :: rest).drop 4)
      else if leadsWith "false".toList (c :: rest) then some (.bool false, (c :: rest).drop 5)
      else if leadsWith "null".toList (c :: rest) then some (.null, (c :: rest).drop 4)
      -- json.loads accepts these non-standard constants by default
      -- (parse_constant hook unset): NaN, Infinity, -Infinity
      else if leadsWith "NaN".toList (c :: rest) then some (.nan, (c :: rest).drop 3)
      else if leadsWith "Infinity".toList (c :: rest) then some (.inf true, (c :: rest).drop 8)
      else if leadsWith "-Infinity".toList (c :: rest) then
        some (.inf false, (c :: rest).drop 9)
      else (parseJNum (c :: rest)).map (fun r => (.num r.1, r.2))

/-- Parse the body of a JSON object after `{` (and any leading whitespace). -/
def parseJObjBody : ℕ → List Char → JObj → Option (JVal × List Char)
  | 0, _, _ => none
  | _ + 1, [], _ => none
  | fuel + 1, c :: rest, acc =>
    if c == '}' && acc.isEmpty then some (.obj [], rest)
    else
      match (c :: rest) with
      | '"' :: scs =>
        (parseJStr scs).bind (fun kr =>
          match kr.2.dropWhile jsonWs with
          | ':' :: vcs =>
            (parseJVal fuel vcs).bind (fun vr =>
              let acc' := objInsert kr.1 vr.1 acc
              match vr.2.dropWhile jsonWs with
              | ',' :: ncs => parseJObjBody fuel (ncs.dropWhile jsonWs) acc'
              | '}' :: ncs => some (.obj acc', ncs)
              | _ => none)
          | _ => none)
      | _ => none

/-- Parse the body of a JSON array after `[` (and any leading whitespace). -/
def parseJArrBody : ℕ → List Char → List JVal → Option (JVal × List Char)
  | 0, _, _ => none
  | _ + 1, [], _ => none
  | fuel + 1, c :: rest, acc =>
    if c == ']' && acc.isEmpty then some (.arr [], rest)
    else
      (parseJVal fuel (c :: rest)).bind (fun vr =>
        let acc' := acc ++ [vr.1]
        match vr.2.dropWhile jsonWs with
        | ',' :: ncs => parseJArrBody fuel ncs acc'
        | ']' :: ncs => some (.arr acc', ncs)
        | _ => none)
end

/-- Model of `json.loads`: parse one value and require only whitespace to
remain (`Extra data` error otherwise). -/
def jsonLoads (s : String) : Option JVal :=
  match parseJVal (s.length + 1) s.toList with
  | some (v, rest) => if (rest.dropWhile jsonWs).isEmpty then some v else none
  | none => none

/-! ## `LLMService._parse_llm_response` (lines 198-233) -/

/-- Error taxonomy of the response parser: `noJSON` is the
`ResponseFormatError` ("No JSON found in LLM response"), `invalidJSON` the
`InvalidJSON` error carrying the offending fragment, `structureError` the
(unreachable) case of a parsed non-dict reaching `_validate_structure`. -/
inductive LLMErr where
  | noJSON
  | invalidJSON (frag : String)
  | structureError
deriving DecidableEq

/-- Index of the first occurrence of `c` (`str.find`, `None` for -1). -/
def firstIdx (c : Char) : List Char → Option ℕ
  | [] => none
  | x :: rest => if x == c then some 0 else (firstIdx c rest).map (· + 1)

/-- Index of the last occurrence of `c` (`str.rfind`, `None` for -1). -/
def lastIdx (c : Char) (cs : List Char) : Option ℕ :=
  (firstIdx c cs.reverse).map (fun i => cs.length - 1 - i)

/-- `_parse_llm_response`: find the first `{` and last `}`; if either is
absent raise `ValueError("No JSON found in LLM response")`; otherwise
strictly parse `response[json_start:json_end]` and run the repair pass. -/
def parse_llm_response (response : String) : Except LLMErr JObj :=
  let cs := response.toList
  match firstIdx '{' cs, lastIdx '}' cs with
  | some i, some j =>
    let sub := String.mk ((cs.drop i).take (j + 1 - i))   -- response[json_start:json_end]
    match jsonLoads sub with
    | some (.obj kvs) => .ok (validate_structure kvs)
    | some _ => .error .structureError   -- unreachable: sub starts with '{'
    | none => .error (.invalidJSON sub)
  | _, _ => .error .noJSON

/-- Specification-level description of the parsed fragment: drop everything
before the first `{`, then everything after the last `}`. -/
def boundedFragment (cs : List Char) : List Char :=
  ((cs.dropWhile (fun c => c != '{')).reverse.dropWhile (fun c => c != '}')).reverse

/-- Strict parse plus repair of a fragment: `json.loads` followed by
`_validate_structure`, with `InvalidJSON` carrying the fragment. -/
def strictParseRepair (s : String) : Except LLMErr JObj :=
  match jsonLoads s with
  | some (.obj kvs) => .ok (validate_structure kvs)
  | some _ => .error .structureError
  | none => .error (.invalidJSON s)

/-! ## Pydantic models (`response_models.py`) and the validation fallback
(`extraction_service.py` lines 98-152)

The repository requires pydantic v2 (`app/core/config.py` imports
`pydantic_settings.BaseSettings` and `field_validator`, and
`response_models.py` uses the v2 `model_config` key), so `parse_obj`
(v2's deprecated alias of `model_validate`) is embedded with v2
semantics: required fields with no default raise when missing;
`Optional` fields default to `None` and accept `null`; extra keys are
ignored; `FieldWithConfidence.value : Union[str, int, float, None]` is a
smart union that keeps each scalar as-is and rejects `bool` (not a valid
`str`, `int` or `float` in v2) and containers; `confidence : float =
Field(..., ge=0.0, le=1.0)` coerces numbers and numeric strings to
`float` (rejecting `bool`) and then range checks. -/

/-- Model of `FieldWithConfidence`. `value` holds the validated scalar
unchanged (v2 smart union). -/
structure FieldWC where
  value : JVal := .null
  confidence : ℚ

/-- Pydantic v2 validation of `value : Union[str, int, float, None]`
(smart union): every scalar is kept unchanged — `85` stays an `int`,
`"85"` a `str`, floats (including non-finite ones, `allow_inf_nan`
default) floats, `None` stays `None`; `bool` matches no union member
(v2 rejects `bool` for `str`, `int` and `float`), and containers are
rejected. -/
def vldValue : JVal → Except String JVal
  | .null => .ok .null
  | .str s => .ok (.str s)
  | .num q => .ok (.num q)
  | .nan => .ok .nan
  | .inf p => .ok (.inf p)
  | _ => .error "value is not a valid scalar"

/-- Pydantic v2 validation of `confidence : float = Field(..., ge=0.0,
le=1.0)` (lax mode): numbers and numeric strings coerce to `float` and
are range checked; `bool` is rejected for `float` in v2; non-finite
floats fail a range comparison (`NaN >= 0.0` is false). -/
def vldConfidence : JVal → Except String ℚ
  | .num q => if 0 ≤ q ∧ q ≤ 1 then .ok q else .error "confidence out of range"
  | .str s =>
    match pyFloatOfStr s with
    | .val q => if 0 ≤ q ∧ q ≤ 1 then .ok q else .error "confidence out of range"
    | _ => .error "confidence is out of range or not a float"
  | _ => .error "confidence is not a valid float"

/-- Parse a `FieldWithConfidence` from a JSON value (must be a dict;
`value` defaults to `None`, `confidence` is required). -/
def parseFieldWC : JVal → Except String FieldWC
  | .obj kvs => do
    let v ← vldValue (jGetD kvs "value" .null)
    match jLookup "confidence" kvs with
    | some c => do
      let q ← vldConfidence c
      .ok { value := v, confidence := q }
    | none => .error "confidence field required"
  | _ => .error "FieldWithConfidence expects a dict"

/-- Parse an `Optional[FieldWithConfidence]` entry (missing or `null`
gives `None`). -/
def parseOptFieldWC (kvs : JObj) (k : String) : Except String (Option FieldWC) :=
  match jLookup k kvs with
  | none => .ok none
  | some .null => .ok none
  | some v => (parseFieldWC v).map some

/-- Parse a required `FieldWithConfidence` entry (missing or `null` raises). -/
def parseReqFieldWC (kvs : JObj) (k : String) : Except String FieldWC :=
  match jLookup k kvs with
  | none => .error "field required"
  | some .null => .error "none is not an allowed value"
  | some v => parseFieldWC v

/-- Model of `CandidateDetails` (`name` and `roll_no` required). -/
structure CandidateDetailsM where
  name : FieldWC
  father_name : Option FieldWC := none
  mother_name : Option FieldWC := none
  roll_no : FieldWC
  registration_no : Option FieldWC := none
  dob : Option FieldWC := none
  exam_year : Option FieldWC := none
  board_university : Option FieldWC := none
  institution : Option FieldWC := none

/-- Model of `Subject` (`subject` and `obtained_marks` required). -/
structure SubjectM where
  subject : FieldWC
  max_marks : Option FieldWC := none
  obtained_marks : FieldWC
  max_credits : Option FieldWC := none
  obtained_credits : Option FieldWC := none
  grade : Option FieldWC := none

/-- Model of `OverallResult` (all fields optional). -/
structure OverallResultM where
  result : Option FieldWC := none
  grade : Option FieldWC := none
  percentage : Option FieldWC := none
  cgpa : Option FieldWC := none
  total_marks : Option FieldWC := none
  max_total_marks : Option FieldWC := none

/-- Model of `DocumentInfo` (all fields optional). -/
structure DocumentInfoM where
  issue_date : Option FieldWC := none
  issue_place : Option FieldWC := none
  document_type : Option FieldWC := none
  serial_number : Option FieldWC := none

/-- Model of `ExtractedData`. -/
structure ExtractedDataM where
  candidate_details : CandidateDetailsM
  subjects : List SubjectM
  overall_result : OverallResultM
  document_info : DocumentInfoM

/-- Parse `CandidateDetails` from JSON. -/
def parseCandidateDetails : JVal → Except String CandidateDetailsM
  | .obj kvs => do
    let name ← parseReqFieldWC kvs "name"
    let father ← parseOptFieldWC kvs "father_name"
    let mother ← parseOptFieldWC kvs "mother_name"
    let roll ← parseReqFieldWC kvs "roll_no"
    let reg ← parseOptFieldWC kvs "registration_no"
    let dob ← parseOptFieldWC kvs "dob"
    let ey ← parseOptFieldWC kvs "exam_year"
    let bu ← parseOptFieldWC kvs "board_university"
    let inst ← parseOptFieldWC kvs "institution"
    .ok { name := name, father_name := father, mother_name := mother,
          roll_no := roll, registration_no := reg, dob := dob,
          exam_year := ey, board_university := bu, institution := inst }
  | _ => .error "CandidateDetails expects a dict"

/-- Parse `Subject` from JSON. -/
def parseSubject : JVal → Except String SubjectM
  | .obj kvs => do
    let subj ← parseReqFieldWC kvs "subject"
    let mm ← parseOptFieldWC kvs "max_marks"
    let om ← parseReqFieldWC kvs "obtained_marks"
    let mc ← parseOptFieldWC kvs "max_credits"
    let ocred ← parseOptFieldWC kvs "obtained_credits"
    let gr ← parseOptFieldWC kvs "grade"
    .ok { subject := subj, max_marks := mm, obtained_marks := om,
          max_credits := mc, obtained_credits := ocred, grade := gr }
  | _ => .error "Subject expects a dict"

/-- Parse `OverallResult` from JSON. -/
def parseOverallResult : JVal → Except String OverallResultM
  | .obj kvs => do
    let res ← parseOptFieldWC kvs "result"
    let gr ← parseOptFieldWC kvs "grade"
    let pct ← parseOptFieldWC kvs "percentage"
    let cg ← parseOptFieldWC kvs "cgpa"
    let tm ← parseOptFieldWC kvs "total_marks"
    let mtm ← parseOptFieldWC kvs "max_total_marks"
    .ok { result := res, grade := gr, percentage := pct, cgpa := cg,
          total_marks := tm, max_total_marks := mtm }
  | _ => .error "OverallResult expects a dict"

/-- Parse `DocumentInfo` from JSON. -/
def parseDocumentInfo : JVal → Except String DocumentInfoM
  | .obj kvs => do
    let idate ← parseOptFieldWC kvs "issue_date"
    let iplace ← parseOptFieldWC kvs "issue_place"
    let dtype ← parseOptFieldWC kvs "document_type"
    let ser ← parseOptFieldWC kvs "serial_number"
    .ok { issue_date := idate, issue_place := iplace,
          document_type := dtype, serial_number := ser }
  | _ => .error "DocumentInfo expects a dict"

/-- Model of `ExtractedData.parse_obj(data)`: all four sections required,
`subjects` must be a list of valid `Subject`s. -/
def extractedData_parse_obj (data : JObj) : Except String ExtractedDataM := do
  let cd ←
    match jLookup "candidate_details" data with
    | none => .error "candidate_details field required"
    | some v => parseCandidateDetails v
  let subs ←
    match jLookup "subjects" data with
    | none => .error "subjects field required"
    | some (.arr xs) => xs.mapM parseSubject
    | some _ => .error "subjects is not a valid list"
  let ovr ←
    match jLookup "overall_result" data with
    | none => .error "overall_result field required"
    | some v => parseOverallResult v
  let di ←
    match jLookup "document_info" data with
    | none => .error "document_info field required"
    | some v => parseDocumentInfo v
  .ok { candidate_details := cd, subjects := subs,
        overall_result := ovr, document_info := di }

/-- Python `d.get(k, {})` followed by use as a dict: non-dicts raise
`AttributeError` on the subsequent `.get`. -/
def asDictE : JVal → Except String JObj
  | .obj kvs => .ok kvs
  | _ => .error "AttributeError: no .get"

/-- `ExtractionService._create_minimal_response` (lines 118-152). Reads the
surviving partial `name`/`roll_no` leaves and builds the Minimal Valid
Record; constructing the `FieldWithConfidence`s runs pydantic validation,
so this fallback itself raises when the partial values are invalid. -/
def create_minimal_response (data : JObj) : Except String ExtractedDataM := do
  let cd ← asDictE (jGetD data "candidate_details" (.obj []))
  let nameKVs ← asDictE (jGetD cd "name" (.obj []))
  let rollKVs ← asDictE (jGetD cd "roll_no" (.obj []))
  let nv ← vldValue (jGetD nameKVs "value" (.str "Unknown"))
  let nc ← vldConfidence (jGetD nameKVs "confidence" (.num (1/10)))
  let rv ← vldValue (jGetD rollKVs "value" (.str "Unknown"))
  let rc ← vldConfidence (jGetD rollKVs "confidence" (.num (1/10)))
  .ok { candidate_details :=
          { name := { value := nv, confidence := nc },
            roll_no := { value := rv, confidence := rc } },
        subjects := [],
        overall_result := {},
        document_info := {} }

/-- `ExtractionService._validate_extracted_data` (lines 98-116): try the
pydantic conversion, and on any validation error fall back to
`_create_minimal_response` (whose own exceptions propagate). -/
def validate_extracted_data (data : JObj) : Except String ExtractedDataM :=
  match extractedData_parse_obj data with
  | .ok r => .ok r
  | .error _ => create_minimal_response data

/-- Is an `Except` a success? -/
def exceptOk : Except ε α → Bool
  | .ok _ => true
  | .error _ => false

/-! ## Invariant predicates used by the theorems -/

/-- Is the value a number lying in the closed interval `[0, 1]`? -/
def isNum01 : JVal → Bool
  | .num q => decide (0 ≤ q) && decide (q ≤ 1)
  | _ => false

mutual
/-- Confidence invariant of the data model: every `confidence` entry
anywhere in the tree is a number in `[0, 1]`. -/
def confOkJ : JVal → Bool
  | .obj kvs => confOkKVs kvs
  | .arr xs => confOkList xs
  | _ => true
termination_by structural v => v

/-- `confOkJ` over dict entries. -/
def confOkKVs : JObj → Bool
  | [] => true
  | (k, v) :: rest => (!(k == "confidence") || isNum01 v) && confOkJ v && confOkKVs rest
termination_by structural l => l

/-- `confOkJ` over list items. -/
def confOkList : List JVal → Bool
  | [] => true
  | v :: rest => confOkJ v && confOkList rest
termination_by structural l => l
end

/-- Token-confidence map invariant: every OCR word confidence is in `[0, 1]`. -/
def ocrOk (ocr : List (String × ℚ)) : Bool :=
  ocr.all (fun p => decide (0 ≤ p.2) && decide (p.2 ≤ 1))

/-- The `value` entry of a well-formed leaf (`data['value']`). -/
def leafValue (j : JVal) : JVal :=
  jGetD (leafEntries j) "value" .null

/-- Relation between an input section entry and the corresponding output
entry of the engine: same field key, and the output leaf is exactly
`{'value': <input value>, 'confidence': <some number>}`. -/
def leafFrame (ikv okv : String × JVal) : Prop :=
  okv.1 = ikv.1 ∧ ∃ c : ℚ, okv.2 = .obj [("value", leafValue ikv.2), ("confidence", .num c)]

/-- Frame property of a dict section: the input is a dict, and the output
entries correspond one-to-one to the input's well-formed entries. -/
def secFrame (inJ : JVal) (out : JObj) : Prop :=
  ∃ kvs, inJ = .obj kvs ∧ List.Forall₂ leafFrame (kvs.filter (fun kv => wfLeaf kv.2)) out

/-- Frame property of the subjects section. -/
def subjFrame (inJ : JVal) (out : List JVal) : Prop :=
  (out = [] ∧ (inJ = .obj [] ∨ inJ = .str "")) ∨
  ∃ xs, inJ = .arr xs ∧
    List.Forall₂ (fun s o => ∃ skvs okvs, s = .obj skvs ∧ o = .obj okvs ∧
      List.Forall₂ leafFrame (skvs.filter (fun kv => wfLeaf kv.2)) okvs) xs out

/-- Frame property of a successful engine run: the output has exactly the
four sections, each related to the corresponding input section. -/
def engineFrame (d : JObj) (out : JObj) : Prop :=
  ∃ cd ss ovr di,
    out = [("candidate_details", .obj cd), ("subjects", .arr ss),
           ("overall_result", .obj ovr), ("document_info", .obj di)] ∧
    secFrame (jGetD d "candidate_details" (.obj [])) cd ∧
    subjFrame (jGetD d "subjects" (.arr [])) ss ∧
    secFrame (jGetD d "overall_result" (.obj [])) ovr ∧
    secFrame (jGetD d "document_info" (.obj [])) di

mutual
/-- Post-state of the repair pass's clamp walk, mirroring its recursion
structure: a dict with a `confidence` key is a leaf whose confidence must
be a Python number in `[0, 1]` (`bool` counts as a number, being an `int`
subclass); other dicts and lists are walked. -/
def clampedOk : JVal → Bool
  | .obj kvs =>
    if hasConfKey kvs then kvs.all (fun kv => !(kv.1 == "confidence") || pyNum01 kv.2)
    else clampedOkKVs kvs
  | .arr xs => clampedOkList xs
  | _ => true
termination_by structural v => v

/-- `clampedOk` over dict entries. -/
def clampedOkKVs : JObj → Bool
  | [] => true
  | (_, v) :: rest => clampedOk v && clampedOkKVs rest
termination_by structural l => l

/-- `clampedOk` over list items. -/
def clampedOkList : List JVal → Bool
  | [] => true
  | v :: rest => clampedOk v && clampedOkList rest
termination_by structural l => l
end

/-- A dispatch function whose successful results are bounded whenever the
supplied original confidence is. -/
def DispatchBounded (dispatch : String → JVal → JVal → Except String ℚ) : Prop :=
  ∀ k value oc q, (∀ b, asNum oc = .ok b → 0 ≤ b ∧ b ≤ 1) →
    dispatch k value oc = .ok q → 0 ≤ q ∧ q ≤ 1

/-- One insertion step of `insertSections`. -/
def insStep (acc : JObj) (s : String) : JObj :=
  if (List.lookup s acc).isSome then acc else acc ++ [(s, .obj [])]

/-- Safety of one surviving partial leaf for `_create_minimal_response`:
it must be a dict whose `value` (default `"Unknown"`) passes the scalar
union validation and whose `confidence` (default `0.1`) passes the
`float`-in-`[0,1]` validation. -/
def leafMinimalSafe (j : JVal) : Bool :=
  match j with
  | .obj kvs =>
    exceptOk (vldValue (jGetD kvs "value" (.str "Unknown"))) &&
    exceptOk (vldConfidence (jGetD kvs "confidence" (.num (1/10))))
  | _ => false

/-- Syntactic conditions under which `_create_minimal_response` cannot
itself raise: `candidate_details` (default `{}`) is a dict and its
surviving `name` and `roll_no` leaves (default `{}`) are safe. -/
def minimalSafe (data : JObj) : Bool :=
  match jGetD data "candidate_details" (.obj []) with
  | .obj cd =>
    leafMinimalSafe (jGetD cd "name" (.obj [])) &&
    leafMinimalSafe (jGetD cd "roll_no" (.obj []))
  | _ => false

/-! ## Helper lemmas -/

theorem exceptBind_ok {α β ε : Type} (a : α) (f : α → Except ε β) :
    (Except.ok a : Except ε α) >>= f = f a := rfl

theorem exceptBind_err {α β ε : Type} (e : ε) (f : α → Except ε β) :
    (Except.error e : Except ε α) >>= f = .error e := rfl

theorem lookup_mem {β : Type} {k : String} {v : β} :
    ∀ {kvs : List (String × β)}, List.lookup k kvs = some v → (k, v) ∈ kvs
  | [], h => by simp [List.lookup] at h
  | (k', v') :: rest, h => by
    by_cases hk : k = k'
    · subst hk
      simp [List.lookup] at h
      simp [h]
    · simp [List.lookup, beq_false_of_ne hk] at h
      exact List.mem_cons_of_mem _ (lookup_mem h)

theorem meanOr_bounds (l : List ℚ) (h : ∀ x ∈ l, 0 ≤ x ∧ x ≤ 1) :
    0 ≤ meanOr l ∧ meanOr l ≤ 1 := by
  unfold meanOr
  split
  · norm_num
  · next hne =>
    have hlen : 0 < (l.length : ℚ) := by
      have h1 : l ≠ [] := by simpa [List.isEmpty_iff] using hne
      have h2 : 0 < l.length := List.length_pos.mpr h1
      exact_mod_cast h2
    constructor
    · exact div_nonneg (List.sum_nonneg (fun x hx => (h x hx).1)) (le_of_lt hlen)
    · rw [div_le_one hlen]
      calc l.sum ≤ l.length • (1 : ℚ) := List.sum_le_card_nsmul l 1 (fun x hx => (h x hx).2)
        _ = (l.length : ℚ) := by simp

theorem ocr_lookup_bounds {ocr : List (String × ℚ)} (hocr : ocrOk ocr = true)
    (w : String) :
    0 ≤ ((List.lookup w ocr).getD (1/2)) ∧ ((List.lookup w ocr).getD (1/2)) ≤ 1 := by
  cases hl : List.lookup w ocr with
  | none => norm_num
  | some v =>
    have hv := lookup_mem hl
    have := List.all_eq_true.mp hocr _ hv
    simp only [Bool.and_eq_true, decide_eq_true_eq] at this
    simpa using this

theorem wordConfs_bounds {ocr : List (String × ℚ)} (hocr : ocrOk ocr = true)
    (ws : List String) :
    ∀ x ∈ ws.map (fun w => (List.lookup w ocr).getD (1/2)), 0 ≤ x ∧ x ≤ 1 := by
  intro x hx
  obtain ⟨w, _, rfl⟩ := List.mem_map.mp hx
  exact ocr_lookup_bounds hocr w

theorem confOkKVs_mem {kvs : JObj} (h : confOkKVs kvs = true) {k : String} {v : JVal}
    (hm : (k, v) ∈ kvs) : (k = "confidence" → isNum01 v = true) ∧ confOkJ v = true := by
  induction kvs with
  | nil => cases hm
  | cons kv rest ih =>
    obtain ⟨k', v'⟩ := kv
    rw [confOkKVs] at h
    simp only [Bool.and_eq_true] at h
    rcases List.mem_cons.mp hm with heq | hmem
    · cases heq
      refine ⟨fun hk => ?_, h.1.2⟩
      subst hk
      rcases Bool.or_eq_true _ _ |>.mp h.1.1 with hbad | hok
      · simp at hbad
      · exact hok
    · exact ih h.2 hmem

theorem confOk_lookupConf {kvs : JObj} (h : confOkKVs kvs = true) :
    ∀ b : ℚ, asNum (jGetD kvs "confidence" (.num (1/2))) = .ok b → 0 ≤ b ∧ b ≤ 1 := by
  intro b hb
  unfold jGetD jLookup at hb
  cases hl : List.lookup "confidence" kvs with
  | none =>
    rw [hl] at hb
    simp [asNum] at hb
    subst hb
    norm_num
  | some v =>
    rw [hl] at hb
    have hnum := (confOkKVs_mem h (lookup_mem hl)).1 rfl
    cases v with
    | num q =>
      simp [asNum] at hb
      simp [isNum01] at hnum
      simpa [← hb] using hnum
    | bool bb => simp [isNum01] at hnum
    | nan => simp [isNum01] at hnum
    | inf p => simp [isNum01] at hnum
    | null => simp [isNum01] at hnum
    | str s => simp [isNum01] at hnum
    | arr xs => simp [isNum01] at hnum
    | obj o => simp [isNum01] at hnum

theorem confOk_leafValue {kvs : JObj} (h : confOkKVs kvs = true) :
    confOkJ (jGetD kvs "value" .null) = true := by
  unfold jGetD jLookup
  cases hl : List.lookup "value" kvs with
  | none => simp [Option.getD, confOkJ]
  | some v =>
    simpa [Option.getD] using (confOkKVs_mem h (lookup_mem hl)).2

/-! ## Bounds of the five scoring functions -/

theorem dateFormatConf_bounds (v : JVal) : 0 ≤ dateFormatConf v ∧ dateFormatConf v ≤ 1 := by
  cases v <;> simp only [dateFormatConf] <;> first | (split <;> norm_num) | norm_num

theorem marksNumericConf_bounds (v : JVal) :
    0 ≤ marksNumericConf v ∧ marksNumericConf v ≤ 1 := by
  unfold marksNumericConf
  cases pyFloat v <;> dsimp only <;>
    first | (constructor <;> split_ifs <;> norm_num) | norm_num

theorem pattern_conf_bounds {value : JVal} {ptype : String} {oc : JVal} {txt : String}
    {q : ℚ} (hoc : ∀ b, asNum oc = .ok b → 0 ≤ b ∧ b ≤ 1)
    (h : calculate_pattern_confidence value ptype oc txt = .ok q) : 0 ≤ q ∧ q ≤ 1 := by
  unfold calculate_pattern_confidence at h
  split at h
  · cases h; norm_num
  · cases hn : asNum oc with
    | error e => rw [hn, exceptBind_err] at h; cases h
    | ok base =>
      rw [hn, exceptBind_ok] at h
      obtain ⟨hb0, hb1⟩ := hoc base hn
      rw [Except.ok.injEq] at h
      subst h
      have hpc : (0:ℚ) ≤ (if (patternsFor ptype).any (fun p => rsearch p (pyStr value)) then (9:ℚ)/10 else 1/10) ∧
          (if (patternsFor ptype).any (fun p => rsearch p (pyStr value)) then (9:ℚ)/10 else 1/10) ≤ 1 := by
        split <;> norm_num
      have hpr : (0:ℚ) ≤ (if substrOf (pyLower (pyStr value)) (pyLower txt) then (1:ℚ) else 2/10) ∧
          (if substrOf (pyLower (pyStr value)) (pyLower txt) then (1:ℚ) else 2/10) ≤ 1 := by
        split <;> norm_num
      constructor <;> [nlinarith [hpc.1, hpc.2, hpr.1, hpr.2]; nlinarith [hpc.1, hpc.2, hpr.1, hpr.2]]

theorem name_conf_bounds {value oc : JVal} {ocr : List (String × ℚ)} {txt : String}
    {q : ℚ} (hocr : ocrOk ocr = true) (hoc : ∀ b, asNum oc = .ok b → 0 ≤ b ∧ b ≤ 1)
    (h : calculate_name_confidence value oc ocr txt = .ok q) : 0 ≤ q ∧ q ≤ 1 := by
  unfold calculate_name_confidence at h
  split at h
  · cases h; norm_num
  · cases hs : asStr value with
    | error e => rw [hs, exceptBind_err] at h; cases h
    | ok s =>
      rw [hs, exceptBind_ok] at h
      cases hn : asNum oc with
      | error e => rw [hn, exceptBind_err] at h; cases h
      | ok base =>
        rw [hn, exceptBind_ok] at h
        obtain ⟨hb0, hb1⟩ := hoc base hn
        rw [Except.ok.injEq] at h
        subst h
        obtain ⟨hm0, hm1⟩ := meanOr_bounds _ (wordConfs_bounds hocr (pySplit s))
        have hpr : (0:ℚ) ≤ (if substrOf (pyLower s) (pyLower txt) then (1:ℚ) else 3/10) ∧
            (if substrOf (pyLower s) (pyLower txt) then (1:ℚ) else 3/10) ≤ 1 := by
          split <;> norm_num
        have hpt : (0:ℚ) ≤ (if namePatternOk s then (8:ℚ)/10 else 4/10) ∧
            (if namePatternOk s then (8:ℚ)/10 else 4/10) ≤ 1 := by
          split <;> norm_num
        constructor <;> nlinarith [hpr.1, hpr.2, hpt.1, hpt.2]

theorem date_conf_bounds {value oc : JVal} {txt : String}
    {q : ℚ} (hoc : ∀ b, asNum oc = .ok b → 0 ≤ b ∧ b ≤ 1)
    (h : calculate_date_confidence value oc txt = .ok q) : 0 ≤ q ∧ q ≤ 1 := by
  unfold calculate_date_confidence at h
  split at h
  · cases h; norm_num
  · cases hn : asNum oc with
    | error e => rw [hn, exceptBind_err] at h; cases h
    | ok base =>
      rw [hn, exceptBind_ok] at h
      obtain ⟨hb0, hb1⟩ := hoc base hn
      cases hp : calculate_pattern_confidence value "date" oc txt with
      | error e => rw [hp, exceptBind_err] at h; cases h
      | ok pc =>
        rw [hp, exceptBind_ok] at h
        obtain ⟨hp0, hp1⟩ := pattern_conf_bounds hoc hp
        rw [Except.ok.injEq] at h
        subst h
        have hfc := dateFormatConf_bounds value
        constructor <;> nlinarith [hfc.1, hfc.2]

theorem marks_conf_bounds {value oc : JVal} {txt : String}
    {q : ℚ} (hoc : ∀ b, asNum oc = .ok b → 0 ≤ b ∧ b ≤ 1)
    (h : calculate_marks_confidence value oc txt = .ok q) : 0 ≤ q ∧ q ≤ 1 := by
  unfold calculate_marks_confidence at h
  split at h
  · cases h; norm_num
  · cases hn : asNum oc with
    | error e => rw [hn, exceptBind_err] at h; cases h
    | ok base =>
      rw [hn, exceptBind_ok] at h
      obtain ⟨hb0, hb1⟩ := hoc base hn
      rw [Except.ok.injEq] at h
      subst h
      have hnc := marksNumericConf_bounds value
      have hpr : (0:ℚ) ≤ (if substrOf (pyStr value) txt then (1:ℚ) else 3/10) ∧
          (if substrOf (pyStr value) txt then (1:ℚ) else 3/10) ≤ 1 := by
        split <;> norm_num
      constructor <;> nlinarith [hnc.1, hnc.2, hpr.1, hpr.2]

theorem text_conf_bounds {value oc : JVal} {ocr : List (String × ℚ)} {txt : String}
    {q : ℚ} (hocr : ocrOk ocr = true) (hoc : ∀ b, asNum oc = .ok b → 0 ≤ b ∧ b ≤ 1)
    (h : calculate_text_confidence value oc ocr txt = .ok q) : 0 ≤ q ∧ q ≤ 1 := by
  unfold calculate_text_confidence at h
  split at h
  · cases h; norm_num
  · cases hn : asNum oc with
    | error e => rw [hn, exceptBind_err] at h; cases h
    | ok base =>
      rw [hn, exceptBind_ok] at h
      cases hs : asStr value with
      | error e => rw [hs, exceptBind_err] at h; cases h
      | ok s =>
        rw [hs, exceptBind_ok] at h
        obtain ⟨hb0, hb1⟩ := hoc base hn
        rw [Except.ok.injEq] at h
        subst h
        obtain ⟨hm0, hm1⟩ := meanOr_bounds _ (wordConfs_bounds hocr (pySplit (pyStr value)))
        have hpr : (0:ℚ) ≤ (if substrOf (pyLower s) (pyLower txt) then (1:ℚ) else 2/10) ∧
            (if substrOf (pyLower s) (pyLower txt) then (1:ℚ) else 2/10) ≤ 1 := by
          split <;> norm_num
        constructor <;> nlinarith [hpr.1, hpr.2]

/-! ## Bounds of the dispatch functions and section processors -/

theorem cdDispatch_bounds {ocr : List (String × ℚ)} {txt k : String} {value oc : JVal}
    {q : ℚ} (hocr : ocrOk ocr = true) (hoc : ∀ b, asNum oc = .ok b → 0 ≤ b ∧ b ≤ 1)
    (h : cdDispatch ocr txt k value oc = .ok q) : 0 ≤ q ∧ q ≤ 1 := by
  unfold cdDispatch at h
  split_ifs at h
  · exact name_conf_bounds hocr hoc h
  · exact pattern_conf_bounds hoc h
  · exact pattern_conf_bounds hoc h
  · exact date_conf_bounds hoc h
  · exact text_conf_bounds hocr hoc h

theorem subjDispatch_bounds {ocr : List (String × ℚ)} {txt k : String} {value oc : JVal}
    {q : ℚ} (hocr : ocrOk ocr = true) (hoc : ∀ b, asNum oc = .ok b → 0 ≤ b ∧ b ≤ 1)
    (h : subjDispatch ocr txt k value oc = .ok q) : 0 ≤ q ∧ q ≤ 1 := by
  unfold subjDispatch at h
  split_ifs at h
  · exact marks_conf_bounds hoc h
  · exact pattern_conf_bounds hoc h
  · exact text_conf_bounds hocr hoc h

theorem ovrDispatch_bounds {ocr : List (String × ℚ)} {txt k : String} {value oc : JVal}
    {q : ℚ} (hocr : ocrOk ocr = true) (hoc : ∀ b, asNum oc = .ok b → 0 ≤ b ∧ b ≤ 1)
    (h : ovrDispatch ocr txt k value oc = .ok q) : 0 ≤ q ∧ q ≤ 1 := by
  unfold ovrDispatch at h
  split_ifs at h
  · exact pattern_conf_bounds hoc h
  · exact pattern_conf_bounds hoc h
  · exact marks_conf_bounds hoc h
  · exact text_conf_bounds hocr hoc h

theorem diDispatch_bounds {ocr : List (String × ℚ)} {txt k : String} {value oc : JVal}
    {q : ℚ} (hocr : ocrOk ocr = true) (hoc : ∀ b, asNum oc = .ok b → 0 ≤ b ∧ b ≤ 1)
    (h : diDispatch ocr txt k value oc = .ok q) : 0 ≤ q ∧ q ≤ 1 := by
  unfold diDispatch at h
  split_ifs at h
  · exact date_conf_bounds hoc h
  · exact text_conf_bounds hocr hoc h

theorem processFields_confOk {dispatch : String → JVal → JVal → Except String ℚ}
    (hdisp : DispatchBounded dispatch) :
    ∀ {kvs out : JObj}, confOkKVs kvs = true →
      processFields dispatch kvs = .ok out → confOkKVs out = true := by
  intro kvs
  induction kvs with
  | nil =>
    intro out h hp
    unfold processFields at hp
    rw [Except.ok.injEq] at hp
    subst hp
    rfl
  | cons kv rest ih =>
    intro out h hp
    obtain ⟨k, v⟩ := kv
    rw [confOkKVs, Bool.and_eq_true, Bool.and_eq_true] at h
    obtain ⟨⟨hkc, hv⟩, hrest⟩ := h
    unfold processFields at hp
    split at hp
    · next hwf =>
      dsimp only at hp
      cases hd : dispatch k (jGetD (leafEntries v) "value" .null)
          (jGetD (leafEntries v) "confidence" (.num (1/2))) with
      | error e => rw [hd, exceptBind_err] at hp; cases hp
      | ok conf =>
        rw [hd, exceptBind_ok] at hp
        cases hr : processFields dispatch rest with
        | error e => rw [hr, exceptBind_err] at hp; cases hp
        | ok out' =>
          rw [hr, exceptBind_ok] at hp
          rw [Except.ok.injEq] at hp
          subst hp
          -- v is a dict, since wfLeaf v holds
          obtain ⟨lkvs, rfl⟩ : ∃ lkvs, v = .obj lkvs := by
            cases v <;> simp [wfLeaf] at hwf ⊢
          have hlk : confOkKVs lkvs = true := hv
          have hkne : (k == "confidence") = false := by
            cases hk : k == "confidence" with
            | false => rfl
            | true =>
              rw [hk] at hkc
              simp [isNum01] at hkc
          have hcb := (hdisp k _ _ conf (confOk_lookupConf hlk) hd).1
          rw [confOkKVs, Bool.and_eq_true, Bool.and_eq_true]
          refine ⟨⟨?_, ?_⟩, ih hrest hr⟩
          · simp [hkne]
          · show confOkKVs [("value", jGetD lkvs "value" .null),
              ("confidence", .num (min conf 1))] = true
            have h1 : confOkJ (jGetD lkvs "value" .null) = true := confOk_leafValue hlk
            have h2 : (0:ℚ) ≤ min conf 1 := le_min hcb zero_le_one
            have h3 : min conf 1 ≤ (1:ℚ) := min_le_right _ _
            simp [confOkKVs, confOkJ, isNum01, h1, h2, h3]
    · exact ih hrest hp

theorem processFields_frame {dispatch : String → JVal → JVal → Except String ℚ} :
    ∀ {kvs out : JObj}, processFields dispatch kvs = .ok out →
      List.Forall₂ leafFrame (kvs.filter (fun kv => wfLeaf kv.2)) out := by
  intro kvs
  induction kvs with
  | nil =>
    intro out hp
    unfold processFields at hp
    rw [Except.ok.injEq] at hp
    subst hp
    simp
  | cons kv rest ih =>
    intro out hp
    obtain ⟨k, v⟩ := kv
    unfold processFields at hp
    split at hp
    · next hwf =>
      dsimp only at hp
      cases hd : dispatch k (jGetD (leafEntries v) "value" .null)
          (jGetD (leafEntries v) "confidence" (.num (1/2))) with
      | error e => rw [hd, exceptBind_err] at hp; cases hp
      | ok conf =>
        rw [hd, exceptBind_ok] at hp
        cases hr : processFields dispatch rest with
        | error e => rw [hr, exceptBind_err] at hp; cases hp
        | ok out' =>
          rw [hr, exceptBind_ok] at hp
          rw [Except.ok.injEq] at hp
          subst hp
          rw [List.filter_cons_of_pos (by simpa using hwf)]
          exact List.Forall₂.cons ⟨rfl, min conf 1, rfl⟩ (ih hr)
    · next hwf =>
      rw [List.filter_cons_of_neg (by simpa using hwf)]
      exact ih hp

theorem frame_keys : ∀ {l1 l2 : JObj}, List.Forall₂ leafFrame l1 l2 →
    l2.map Prod.fst = l1.map Prod.fst := by
  intro l1 l2 h
  induction h with
  | nil => rfl
  | cons hab _ ih => simp [ih, hab.1]

theorem confOk_jGetD {d : JObj} {k : String} {dflt : JVal}
    (hd : confOkKVs d = true) (hdflt : confOkJ dflt = true) :
    confOkJ (jGetD d k dflt) = true := by
  unfold jGetD jLookup
  cases hl : List.lookup k d with
  | none => simpa [Option.getD] using hdflt
  | some v => simpa [Option.getD] using (confOkKVs_mem hd (lookup_mem hl)).2

theorem process_cd_confOk {j : JVal} {ocr : List (String × ℚ)} {txt : String} {out : JObj}
    (hocr : ocrOk ocr = true) (hj : confOkJ j = true)
    (hp : process_candidate_details j ocr txt = .ok out) : confOkKVs out = true := by
  cases j with
  | obj kvs =>
    exact processFields_confOk
      (fun k value oc q hoc h => cdDispatch_bounds hocr hoc h) hj hp
  | null => simp [process_candidate_details] at hp
  | bool b => simp [process_candidate_details] at hp
  | num q => simp [process_candidate_details] at hp
  | nan => simp [process_candidate_details] at hp
  | inf p => simp [process_candidate_details] at hp
  | str s => simp [process_candidate_details] at hp
  | arr xs => simp [process_candidate_details] at hp

theorem process_ovr_confOk {j : JVal} {ocr : List (String × ℚ)} {txt : String} {out : JObj}
    (hocr : ocrOk ocr = true) (hj : confOkJ j = true)
    (hp : process_overall_result j ocr txt = .ok out) : confOkKVs out = true := by
  cases j with
  | obj kvs =>
    exact processFields_confOk
      (fun k value oc q hoc h => ovrDispatch_bounds hocr hoc h) hj hp
  | null => simp [process_overall_result] at hp
  | bool b => simp [process_overall_result] at hp
  | num q => simp [process_overall_result] at hp
  | nan => simp [process_overall_result] at hp
  | inf p => simp [process_overall_result] at hp
  | str s => simp [process_overall_result] at hp
  | arr xs => simp [process_overall_result] at hp

theorem process_di_confOk {j : JVal} {ocr : List (String × ℚ)} {txt : String} {out : JObj}
    (hocr : ocrOk ocr = true) (hj : confOkJ j = true)
    (hp : process_document_info j ocr txt = .ok out) : confOkKVs out = true := by
  cases j with
  | obj kvs =>
    exact processFields_confOk
      (fun k value oc q hoc h => diDispatch_bounds hocr hoc h) hj hp
  | null => simp [process_document_info] at hp
  | bool b => simp [process_document_info] at hp
  | num q => simp [process_document_info] at hp
  | nan => simp [process_document_info] at hp
  | inf p => simp [process_document_info] at hp
  | str s => simp [process_document_info] at hp
  | arr xs => simp [process_document_info] at hp

theorem processSubjectsList_confOk {ocr : List (String × ℚ)} {txt : String}
    (hocr : ocrOk ocr = true) :
    ∀ {xs : List JVal} {out : List JVal}, confOkList xs = true →
      processSubjectsList ocr txt xs = .ok out → confOkList out = true := by
  intro xs
  induction xs with
  | nil =>
    intro out h hp
    unfold processSubjectsList at hp
    rw [Except.ok.injEq] at hp
    subst hp
    rfl
  | cons s rest ih =>
    intro out h hp
    rw [confOkList, Bool.and_eq_true] at h
    unfold processSubjectsList at hp
    cases hs : processSubject ocr txt s with
    | error e => rw [hs, exceptBind_err] at hp; cases hp
    | ok s' =>
      rw [hs, exceptBind_ok] at hp
      cases hr : processSubjectsList ocr txt rest with
      | error e => rw [hr, exceptBind_err] at hp; cases hp
      | ok out' =>
        rw [hr, exceptBind_ok] at hp
        rw [Except.ok.injEq] at hp
        subst hp
        rw [confOkList, Bool.and_eq_true]
        refine ⟨?_, ih h.2 hr⟩
        cases s with
        | obj skvs =>
          unfold processSubject at hs
          dsimp only at hs
          cases hf : processFields (subjDispatch ocr txt) skvs with
          | error e => rw [hf] at hs; simp [Except.map] at hs
          | ok o =>
            rw [hf] at hs
            simp only [Except.map] at hs
            rw [Except.ok.injEq] at hs
            subst hs
            show confOkKVs o = true
            exact processFields_confOk
              (fun k value oc q hoc h => subjDispatch_bounds hocr hoc h) h.1 hf
        | null => simp [processSubject] at hs
        | bool b => simp [processSubject] at hs
        | num q => simp [processSubject] at hs
        | nan => simp [processSubject] at hs
        | inf p => simp [processSubject] at hs
        | str s2 => simp [processSubject] at hs
        | arr xs2 => simp [processSubject] at hs

theorem process_subjects_confOk {j : JVal} {ocr : List (String × ℚ)} {txt : String}
    {out : List JVal} (hocr : ocrOk ocr = true) (hj : confOkJ j = true)
    (hp : process_subjects j ocr txt = .ok out) : confOkList out = true := by
  cases j with
  | arr xs => exact processSubjectsList_confOk hocr hj hp
  | obj kvs =>
    unfold process_subjects at hp
    dsimp only at hp
    split at hp
    · rw [Except.ok.injEq] at hp; subst hp; rfl
    · cases hp
  | str s =>
    unfold process_subjects at hp
    dsimp only at hp
    split at hp
    · rw [Except.ok.injEq] at hp; subst hp; rfl
    · cases hp
  | null => simp [process_subjects] at hp
  | bool b => simp [process_subjects] at hp
  | num q => simp [process_subjects] at hp
  | nan => simp [process_subjects] at hp
  | inf p => simp [process_subjects] at hp

/-! ## Claim theorems -/

/-- C1: for every draft record and token-confidence map satisfying the data
model invariant (all confidences are numbers in `[0, 1]`) and every source
text, every `confidence` entry in the record produced by
`calculate_confidence_scores` is again a number in the closed interval
`[0, 1]`: scores are capped at `1.0` and cannot become negative. -/
theorem C1_engine_confidences_in_unit_interval
    (d : JObj) (ocr : List (String × ℚ)) (txt : String)
    (hd : confOkKVs d = true) (hocr : ocrOk ocr = true) :
    confOkKVs (calculate_confidence_scores d ocr txt) = true := by
  unfold calculate_confidence_scores
  cases hc : calculate_confidence_scores_core d ocr txt with
  | error e => exact hd
  | ok r =>
    unfold calculate_confidence_scores_core at hc
    cases h1 : process_candidate_details (jGetD d "candidate_details" (.obj [])) ocr txt with
    | error e => rw [h1, exceptBind_err] at hc; cases hc
    | ok cd =>
      rw [h1, exceptBind_ok] at hc
      cases h2 : process_subjects (jGetD d "subjects" (.arr [])) ocr txt with
      | error e => rw [h2, exceptBind_err] at hc; cases hc
      | ok ss =>
        rw [h2, exceptBind_ok] at hc
        cases h3 : process_overall_result (jGetD d "overall_result" (.obj [])) ocr txt with
        | error e => rw [h3, exceptBind_err] at hc; cases hc
        | ok ovr =>
          rw [h3, exceptBind_ok] at hc
          cases h4 : process_document_info (jGetD d "document_info" (.obj [])) ocr txt with
          | error e => rw [h4, exceptBind_err] at hc; cases hc
          | ok di =>
            rw [h4, exceptBind_ok] at hc
            rw [Except.ok.injEq] at hc
            subst hc
            have hcd := process_cd_confOk hocr (confOk_jGetD hd (by rfl)) h1
            have hss := process_subjects_confOk hocr (confOk_jGetD hd (by rfl)) h2
            have hovr := process_ovr_confOk hocr (confOk_jGetD hd (by rfl)) h3
            have hdi := process_di_confOk hocr (confOk_jGetD hd (by rfl)) h4
            simp [confOkKVs, confOkJ, isNum01, hcd, hss, hovr, hdi]

/-- Witness for C1 at a concrete draft, token-confidence map and text. -/
theorem C1_witness :
    confOkKVs (calculate_confidence_scores
      [("candidate_details", .obj
          [("name", .obj [("value", .str "John Smith"), ("confidence", .num (9/10))]),
           ("roll_no", .obj [("value", .str "AB123456"), ("confidence", .num 1)])]),
       ("subjects", .arr
          [.obj [("obtained_marks", .obj [("value", .num 85), ("confidence", .num (1/2))])]])]
      [("John", 9/10), ("Smith", 4/5)]
      "John Smith Roll No: AB123456 85") = true :=
  C1_engine_confidences_in_unit_interval _ _ _ (by decide) (by decide)

/-- C2: whenever scoring the whole record raises internally, the top-level
handler of `calculate_confidence_scores` catches the error and returns the
original draft with its confidences unmodified; the error never
propagates (the function is total). -/
theorem C2_engine_failure_returns_original
    (d : JObj) (ocr : List (String × ℚ)) (txt : String)
    (h : exceptOk (calculate_confidence_scores_core d ocr txt) = false) :
    calculate_confidence_scores d ocr txt = d := by
  unfold calculate_confidence_scores
  cases hc : calculate_confidence_scores_core d ocr txt with
  | error e => rfl
  | ok r => rw [hc] at h; simp [exceptOk] at h

/-- Witness for C2: a draft whose `name` leaf holds a number makes the
scoring raise (`value.split()` on a non-string) and the engine returns the
draft unchanged. -/
theorem C2_witness :
    calculate_confidence_scores
      [("candidate_details", .obj
          [("name", .obj [("value", .num 5), ("confidence", .num (9/10))])])]
      [] "" =
    [("candidate_details", .obj
        [("name", .obj [("value", .num 5), ("confidence", .num (9/10))])])] :=
  C2_engine_failure_returns_original _ _ _ (by decide)

/-- C4: the identifier-pattern scorer on roll number `"AB123456"` with
provider confidence `1.0`, with the value a substring of the source text
and matching the registered pattern `\b[A-Z]{1,3}\d{4,8}\b`, yields
exactly `0.4·1.0 + 0.4·0.9 + 0.2·1.0 = 0.96`. -/
theorem C4_roll_number_confidence_096 :
    calculate_pattern_confidence (.str "AB123456") "roll_number" (.num 1)
      "Roll No: AB123456" = .ok ((4/10) * 1 + (4/10) * (9/10) + (2/10) * 1) ∧
    ((4/10) * 1 + (4/10) * (9/10) + (2/10) * 1 : ℚ) = 96/100 := by
  constructor
  · rfl
  · norm_num

/-- C5: the personal-name scorer returns exactly `0.0` for an empty value,
a `None` value or the sentinel `"Unknown"`, skipping the weighted sum, and
every field type's scorer returns exactly `0.0` for a `None` value. -/
theorem C5_short_circuit_zero (oc : JVal) (ocr : List (String × ℚ))
    (txt pt : String) :
    calculate_name_confidence .null oc ocr txt = .ok 0 ∧
    calculate_name_confidence (.str "") oc ocr txt = .ok 0 ∧
    calculate_name_confidence (.str "Unknown") oc ocr txt = .ok 0 ∧
    calculate_pattern_confidence .null pt oc txt = .ok 0 ∧
    calculate_date_confidence .null oc txt = .ok 0 ∧
    calculate_marks_confidence .null oc txt = .ok 0 ∧
    calculate_text_confidence .null oc ocr txt = .ok 0 :=
  ⟨rfl, rfl, rfl, rfl, rfl, rfl, rfl⟩

theorem secFrame_of_cd {j : JVal} {ocr : List (String × ℚ)} {txt : String} {out : JObj}
    (hp : process_candidate_details j ocr txt = .ok out) : secFrame j out := by
  cases j with
  | obj kvs => exact ⟨kvs, rfl, processFields_frame hp⟩
  | null => simp [process_candidate_details] at hp
  | bool b => simp [process_candidate_details] at hp
  | num q => simp [process_candidate_details] at hp
  | nan => simp [process_candidate_details] at hp
  | inf p => simp [process_candidate_details] at hp
  | str s => simp [process_candidate_details] at hp
  | arr xs => simp [process_candidate_details] at hp

theorem secFrame_of_ovr {j : JVal} {ocr : List (String × ℚ)} {txt : String} {out : JObj}
    (hp : process_overall_result j ocr txt = .ok out) : secFrame j out := by
  cases j with
  | obj kvs => exact ⟨kvs, rfl, processFields_frame hp⟩
  | null => simp [process_overall_result] at hp
  | bool b => simp [process_overall_result] at hp
  | num q => simp [process_overall_result] at hp
  | nan => simp [process_overall_result] at hp
  | inf p => simp [process_overall_result] at hp
  | str s => simp [process_overall_result] at hp
  | arr xs => simp [process_overall_result] at hp

theorem secFrame_of_di {j : JVal} {ocr : List (String × ℚ)} {txt : String} {out : JObj}
    (hp : process_document_info j ocr txt = .ok out) : secFrame j out := by
  cases j with
  | obj kvs => exact ⟨kvs, rfl, processFields_frame hp⟩
  | null => simp [process_document_info] at hp
  | bool b => simp [process_document_info] at hp
  | num q => simp [process_document_info] at hp
  | nan => simp [process_document_info] at hp
  | inf p => simp [process_document_info] at hp
  | str s => simp [process_document_info] at hp
  | arr xs => simp [process_document_info] at hp

theorem processSubjectsList_frame {ocr : List (String × ℚ)} {txt : String} :
    ∀ {xs out : List JVal}, processSubjectsList ocr txt xs = .ok out →
      List.Forall₂ (fun s o => ∃ skvs okvs, s = .obj skvs ∧ o = .obj okvs ∧
        List.Forall₂ leafFrame (skvs.filter (fun kv => wfLeaf kv.2)) okvs) xs out := by
  intro xs
  induction xs with
  | nil =>
    intro out hp
    unfold processSubjectsList at hp
    rw [Except.ok.injEq] at hp
    subst hp
    simp
  | cons s rest ih =>
    intro out hp
    unfold processSubjectsList at hp
    cases hs : processSubject ocr txt s with
    | error e => rw [hs, exceptBind_err] at hp; cases hp
    | ok s' =>
      rw [hs, exceptBind_ok] at hp
      cases hr : processSubjectsList ocr txt rest with
      | error e => rw [hr, exceptBind_err] at hp; cases hp
      | ok out' =>
        rw [hr, exceptBind_ok] at hp
        rw [Except.ok.injEq] at hp
        subst hp
        refine List.Forall₂.cons ?_ (ih hr)
        cases s with
        | obj skvs =>
          unfold processSubject at hs
          dsimp only at hs
          cases hf : processFields (subjDispatch ocr txt) skvs with
          | error e => rw [hf] at hs; simp [Except.map] at hs
          | ok o =>
            rw [hf] at hs
            simp only [Except.map] at hs
            rw [Except.ok.injEq] at hs
            subst hs
            exact ⟨skvs, o, rfl, rfl, processFields_frame hf⟩
        | null => simp [processSubject] at hs
        | bool b => simp [processSubject] at hs
        | num q => simp [processSubject] at hs
        | nan => simp [processSubject] at hs
        | inf p => simp [processSubject] at hs
        | str s2 => simp [processSubject] at hs
        | arr xs2 => simp [processSubject] at hs

theorem subjFrame_of_process {j : JVal} {ocr : List (String × ℚ)} {txt : String}
    {out : List JVal} (hp : process_subjects j ocr txt = .ok out) : subjFrame j out := by
  cases j with
  | arr xs => exact Or.inr ⟨xs, rfl, processSubjectsList_frame hp⟩
  | obj kvs =>
    unfold process_subjects at hp
    dsimp only at hp
    split at hp
    · next he =>
      rw [Except.ok.injEq] at hp
      subst hp
      rw [List.isEmpty_iff] at he
      subst he
      exact Or.inl ⟨rfl, Or.inl rfl⟩
    · cases hp
  | str s =>
    unfold process_subjects at hp
    dsimp only at hp
    split at hp
    · next he =>
      rw [Except.ok.injEq] at hp
      subst hp
      subst he
      exact Or.inl ⟨rfl, Or.inr rfl⟩
    · cases hp
  | null => simp [process_subjects] at hp
  | bool b => simp [process_subjects] at hp
  | num q => simp [process_subjects] at hp
  | nan => simp [process_subjects] at hp
  | inf p => simp [process_subjects] at hp

/-- C8: the Confidence Recalibration Engine changes only confidence scores.
Either an internal failure returns the input draft verbatim, or the output
has exactly the four sections, every output leaf is
`{'value': <the input leaf's value>, 'confidence': <number>}` for the
corresponding input entry (values never altered), and output field keys
are exactly the well-formed input field keys (no new key introduced). -/
theorem C8_engine_only_changes_confidences
    (d : JObj) (ocr : List (String × ℚ)) (txt : String) :
    calculate_confidence_scores d ocr txt = d ∨
    engineFrame d (calculate_confidence_scores d ocr txt) := by
  unfold calculate_confidence_scores
  cases hc : calculate_confidence_scores_core d ocr txt with
  | error e => exact Or.inl rfl
  | ok r =>
    refine Or.inr ?_
    unfold calculate_confidence_scores_core at hc
    cases h1 : process_candidate_details (jGetD d "candidate_details" (.obj [])) ocr txt with
    | error e => rw [h1, exceptBind_err] at hc; cases hc
    | ok cd =>
      rw [h1, exceptBind_ok] at hc
      cases h2 : process_subjects (jGetD d "subjects" (.arr [])) ocr txt with
      | error e => rw [h2, exceptBind_err] at hc; cases hc
      | ok ss =>
        rw [h2, exceptBind_ok] at hc
        cases h3 : process_overall_result (jGetD d "overall_result" (.obj [])) ocr txt with
        | error e => rw [h3, exceptBind_err] at hc; cases hc
        | ok ovr =>
          rw [h3, exceptBind_ok] at hc
          cases h4 : process_document_info (jGetD d "document_info" (.obj [])) ocr txt with
          | error e => rw [h4, exceptBind_err] at hc; cases hc
          | ok di =>
            rw [h4, exceptBind_ok] at hc
            rw [Except.ok.injEq] at hc
            subst hc
            exact ⟨cd, ss, ovr, di, rfl, secFrame_of_cd h1, subjFrame_of_process h2,
              secFrame_of_ovr h3, secFrame_of_di h4⟩

/-- C10: in every section walker, an entry whose content is not a dict
containing a `value` key is silently omitted: the output field keys are
exactly the keys of the well-formed input entries, so a malformed leaf is
neither preserved nor replaced by a zero-confidence leaf. -/
theorem C10_malformed_entries_omitted
    (kvs : JObj) (ocr : List (String × ℚ)) (txt : String) (out : JObj) :
    (process_candidate_details (.obj kvs) ocr txt = .ok out →
       out.map Prod.fst = (kvs.filter (fun kv => wfLeaf kv.2)).map Prod.fst) ∧
    (processFields (subjDispatch ocr txt) kvs = .ok out →
       out.map Prod.fst = (kvs.filter (fun kv => wfLeaf kv.2)).map Prod.fst) ∧
    (process_overall_result (.obj kvs) ocr txt = .ok out →
       out.map Prod.fst = (kvs.filter (fun kv => wfLeaf kv.2)).map Prod.fst) ∧
    (process_document_info (.obj kvs) ocr txt = .ok out →
       out.map Prod.fst = (kvs.filter (fun kv => wfLeaf kv.2)).map Prod.fst) :=
  ⟨fun hp => frame_keys (processFields_frame hp),
   fun hp => frame_keys (processFields_frame hp),
   fun hp => frame_keys (processFields_frame hp),
   fun hp => frame_keys (processFields_frame hp)⟩

/-- Witness for C10: a candidate-details section with one well-formed leaf
and one malformed entry (`'bad': 'x'`) processes to an output whose only
key is the well-formed `name`; the malformed key disappears. -/
theorem C10_witness :
    [("name", JVal.obj [("value", .str "A"), ("confidence",
        .num ((9/10) * (4/10) + (1/2) * (3/10) + 1 * (2/10) + (8/10) * (1/10)))])].map
        Prod.fst =
      (([("name", JVal.obj [("value", .str "A"), ("confidence", .num (9/10))]),
         ("bad", JVal.str "x")] : JObj).filter (fun kv => wfLeaf kv.2)).map Prod.fst :=
  (C10_malformed_entries_omitted
    [("name", .obj [("value", .str "A"), ("confidence", .num (9/10))]),
     ("bad", .str "x")] [] "A" _).1 (by rfl)

/-! ## Lemmas about the repair pass -/

theorem lookup_append_none {β : Type} {k : String} :
    ∀ {l1 : List (String × β)} (l2 : List (String × β)),
      List.lookup k l1 = none → List.lookup k (l1 ++ l2) = List.lookup k l2 := by
  intro l1
  induction l1 with
  | nil => intro l2 _; rfl
  | cons kv rest ih =>
    intro l2 h
    rw [List.cons_append, List.lookup]
    rw [List.lookup] at h
    cases hk : (k == kv.1) with
    | true => rw [hk] at h; cases h
    | false => rw [hk] at h; exact ih l2 h

theorem lookup_append_some {β : Type} {k : String} {v : β} :
    ∀ {l1 : List (String × β)} (l2 : List (String × β)),
      List.lookup k l1 = some v → List.lookup k (l1 ++ l2) = some v := by
  intro l1
  induction l1 with
  | nil => intro l2 h; cases h
  | cons kv rest ih =>
    intro l2 h
    rw [List.cons_append, List.lookup]
    rw [List.lookup] at h
    cases hk : (k == kv.1) with
    | true => rw [hk] at h; exact h
    | false => rw [hk] at h; exact ih l2 h

theorem insertSections_eq (kvs : JObj) :
    insertSections kvs =
      insStep (insStep (insStep (insStep kvs "candidate_details") "subjects")
        "overall_result") "document_info" := rfl

theorem lookup_insStep_same {acc : JObj} {s : String} (h : List.lookup s acc = none) :
    List.lookup s (insStep acc s) = some (.obj []) := by
  unfold insStep
  rw [h]
  simp only [Option.isSome_none, Bool.false_eq_true, if_false]
  rw [lookup_append_none _ h]
  simp [List.lookup]

theorem lookup_insStep_pres {acc : JObj} {s t : String} {v : JVal}
    (h : List.lookup s acc = some v) : List.lookup s (insStep acc t) = some v := by
  unfold insStep
  split
  · exact h
  · exact lookup_append_some _ h

theorem lookup_insStep_other {acc : JObj} {s t : String} (hne : s ≠ t) :
    List.lookup s (insStep acc t) = List.lookup s acc := by
  unfold insStep
  split
  · rfl
  · cases hl : List.lookup s acc with
    | some v => exact lookup_append_some _ hl
    | none =>
      rw [lookup_append_none _ hl]
      simp [List.lookup, beq_false_of_ne hne]

theorem lookup_coerce_other {kvs : JObj} {s : String} (hne : s ≠ "subjects") :
    List.lookup s (coerceSubjects kvs) = List.lookup s kvs := by
  induction kvs with
  | nil => rfl
  | cons kv rest ih =>
    unfold coerceSubjects at ih ⊢
    rw [List.map_cons]
    by_cases hc : (kv.1 == "subjects" && !isArr kv.2) = true
    · rw [if_pos hc]
      rw [List.lookup, List.lookup]
      have : (s == kv.1) = false := by
        simp only [Bool.and_eq_true, beq_iff_eq] at hc
        exact beq_false_of_ne (hc.1 ▸ hne)
      rw [this]
      exact ih
    · rw [if_neg hc]
      rw [List.lookup, List.lookup]
      cases hk : (s == kv.1) with
      | true => rfl
      | false => exact ih

theorem lookup_coerce_subjects {kvs : JObj} :
    List.lookup "subjects" (coerceSubjects kvs) =
      (List.lookup "subjects" kvs).map (fun v => if isArr v then v else .arr []) := by
  induction kvs with
  | nil => rfl
  | cons kv rest ih =>
    unfold coerceSubjects at ih ⊢
    rw [List.map_cons]
    by_cases hc : (kv.1 == "subjects" && !isArr kv.2) = true
    · rw [if_pos hc]
      simp only [Bool.and_eq_true, beq_iff_eq, Bool.not_eq_true'] at hc
      rw [List.lookup, List.lookup]
      have hk : ("subjects" == kv.1) = true := by simp [hc.1]
      rw [hk]
      simp [Option.map, hc.2]
    · rw [if_neg hc]
      rw [List.lookup, List.lookup]
      cases hk : ("subjects" == kv.1) with
      | true =>
        simp only [Bool.and_eq_true, Bool.not_eq_true'] at hc
        have h1 : kv.1 = "subjects" := by
          have := beq_iff_eq.mp hk
          exact this.symm
        have h2 : isArr kv.2 = true := by
          by_contra hno
          exact hc ⟨by simp [h1], by simpa using hno⟩
        simp [Option.map, h2]
      | false => exact ih

theorem lookup_clampEntries {lkvs : JObj} {s : String} (hs : s ≠ "confidence") :
    List.lookup s (clampEntries lkvs) = List.lookup s lkvs := by
  induction lkvs with
  | nil => rfl
  | cons kv rest ih =>
    unfold clampEntries at ih ⊢
    rw [List.map_cons]
    by_cases hc : (kv.1 == "confidence" && !pyNum01 kv.2) = true
    · rw [if_pos hc]
      simp only [Bool.and_eq_true, beq_iff_eq] at hc
      rw [List.lookup, List.lookup]
      have : (s == kv.1) = false := beq_false_of_ne (hc.1 ▸ hs)
      rw [this]
      exact ih
    · rw [if_neg hc]
      rw [List.lookup, List.lookup]
      cases hk : (s == kv.1) with
      | true => rfl
      | false => exact ih

theorem lookup_clampWalkKVs {lkvs : JObj} {s : String} :
    List.lookup s (clampWalkKVs lkvs) = (List.lookup s lkvs).map clampWalk := by
  induction lkvs with
  | nil => rfl
  | cons kv rest ih =>
    obtain ⟨k, v⟩ := kv
    rw [clampWalkKVs, List.lookup, List.lookup]
    cases hk : (s == k) with
    | true => rfl
    | false => exact ih

theorem clampWalk_obj (kvs : JObj) :
    clampWalk (.obj kvs) =
      .obj (if hasConfKey kvs then clampEntries kvs else clampWalkKVs kvs) := by
  rw [clampWalk]
  split <;> rfl

theorem validate_structure_eq (kvs : JObj) :
    JVal.obj (validate_structure kvs) =
      clampWalk (.obj (coerceSubjects (insertSections kvs))) := by
  unfold validate_structure
  dsimp only
  rw [clampWalk_obj]

theorem lookup_validate_shape {kvs : JObj} {s : String} {v : JVal}
    (hs : s ≠ "confidence")
    (h : List.lookup s (coerceSubjects (insertSections kvs)) = some v) :
    List.lookup s (validate_structure kvs) = some v ∨
    List.lookup s (validate_structure kvs) = some (clampWalk v) := by
  have he := validate_structure_eq kvs
  rw [clampWalk_obj] at he
  rw [JVal.obj.injEq] at he
  rw [he]
  split
  · rw [lookup_clampEntries hs, h]
    exact Or.inl rfl
  · rw [lookup_clampWalkKVs, h]
    exact Or.inr rfl

theorem hasConfKey_clampEntries (kvs : JObj) :
    hasConfKey (clampEntries kvs) = hasConfKey kvs := by
  unfold hasConfKey clampEntries
  induction kvs with
  | nil => rfl
  | cons kv rest ih =>
    rw [List.map_cons, List.any_cons, List.any_cons, ih]
    by_cases hc : (kv.1 == "confidence" && !pyNum01 kv.2) = true
    · rw [if_pos hc]
    · rw [if_neg hc]

theorem hasConfKey_clampWalkKVs (kvs : JObj) :
    hasConfKey (clampWalkKVs kvs) = hasConfKey kvs := by
  unfold hasConfKey
  induction kvs with
  | nil => rfl
  | cons kv rest ih =>
    obtain ⟨k, v⟩ := kv
    rw [clampWalkKVs, List.any_cons, List.any_cons, ih]

theorem clampEntries_all (kvs : JObj) :
    (clampEntries kvs).all (fun kv => !(kv.1 == "confidence") || pyNum01 kv.2) = true := by
  unfold clampEntries
  induction kvs with
  | nil => rfl
  | cons kv rest ih =>
    rw [List.map_cons, List.all_cons, Bool.and_eq_true]
    refine ⟨?_, ih⟩
    by_cases hc : (kv.1 == "confidence" && !pyNum01 kv.2) = true
    · rw [if_pos hc]
      simp [pyNum01]
    · rw [if_neg hc]
      rw [Bool.and_eq_true, not_and_or] at hc
      rcases hc with hk | hv
      · simp only [Bool.not_eq_true] at hk
        simp [hk]
      · have hv2 : pyNum01 kv.2 = true := by simpa using hv
        simp [hv2]

mutual
theorem clampedOk_clampWalk (j : JVal) : clampedOk (clampWalk j) = true := by
  cases j with
  | obj kvs =>
    rw [clampWalk_obj]
    by_cases h : hasConfKey kvs = true
    · rw [if_pos h]
      have h2 : hasConfKey (clampEntries kvs) = true := by
        rw [hasConfKey_clampEntries]; exact h
      rw [clampedOk, if_pos h2]
      exact clampEntries_all kvs
    · rw [if_neg h]
      have h2 : ¬hasConfKey (clampWalkKVs kvs) = true := by
        rw [hasConfKey_clampWalkKVs]; exact h
      rw [clampedOk, if_neg h2]
      exact clampedOk_clampWalkKVs kvs
  | arr xs =>
    rw [clampWalk]
    rw [clampedOk]
    exact clampedOk_clampWalkList xs
  | null => rfl
  | bool b => rfl
  | num q => rfl
  | nan => rfl
  | inf p => rfl
  | str s => rfl
termination_by structural j

theorem clampedOk_clampWalkKVs (kvs : JObj) : clampedOkKVs (clampWalkKVs kvs) = true := by
  cases kvs with
  | nil => rfl
  | cons kv rest =>
    obtain ⟨k, v⟩ := kv
    rw [clampWalkKVs, clampedOkKVs, Bool.and_eq_true]
    exact ⟨clampedOk_clampWalk v, clampedOk_clampWalkKVs rest⟩
termination_by structural kvs

theorem clampedOk_clampWalkList (xs : List JVal) : clampedOkList (clampWalkList xs) = true := by
  cases xs with
  | nil => rfl
  | cons v rest =>
    rw [clampWalkList, clampedOkList, Bool.and_eq_true]
    exact ⟨clampedOk_clampWalk v, clampedOk_clampWalkList rest⟩
termination_by structural xs
end

theorem hasConfKey_of_lookup {lkvs : JObj} {c : JVal}
    (h : List.lookup "confidence" lkvs = some c) : hasConfKey lkvs = true := by
  induction lkvs with
  | nil => cases h
  | cons kv rest ih =>
    rw [List.lookup] at h
    rw [hasConfKey, List.any_cons]
    cases hk : ("confidence" == kv.1) with
    | true =>
      have : (kv.1 == "confidence") = true := by
        rw [beq_iff_eq] at hk ⊢
        exact hk.symm
      simp [this]
    | false =>
      rw [hk] at h
      rw [Bool.or_eq_true]
      exact Or.inr (by unfold hasConfKey at ih; exact ih h)

theorem lookup_conf_clampEntries {lkvs : JObj} {c : JVal}
    (h : List.lookup "confidence" lkvs = some c) (hbad : pyNum01 c = false) :
    List.lookup "confidence" (clampEntries lkvs) = some (.num 0) := by
  induction lkvs with
  | nil => cases h
  | cons kv rest ih =>
    rw [List.lookup] at h
    unfold clampEntries at ih ⊢
    rw [List.map_cons]
    cases hk : ("confidence" == kv.1) with
    | true =>
      rw [hk] at h
      rw [Option.some.injEq] at h
      subst h
      have hk2 : (kv.1 == "confidence") = true := by
        rw [beq_iff_eq] at hk ⊢
        exact hk.symm
      rw [if_pos (by rw [hk2, hbad]; rfl)]
      rw [List.lookup, hk]
    | false =>
      rw [hk] at h
      by_cases hc : (kv.1 == "confidence" && !pyNum01 kv.2) = true
      · rw [if_pos hc]
        rw [List.lookup, hk]
        exact ih h
      · rw [if_neg hc]
        rw [List.lookup, hk]
        exact ih h

/-- What `_validate_structure` actually guarantees: each missing required
section is inserted as an empty mapping (the `subjects` insertion is
further coerced to the empty sequence, as is any non-sequence `subjects`
value); after the clamp walk every leaf `confidence` passes the code's own
check `isinstance(conf, (int, float)) and 0 <= conf <= 1` (`pyNum01`,
which a float NaN passes: both comparisons are false); and a leaf whose
`confidence` fails that check (e.g. the string `"high"`) has it replaced
by `0.0` in place. -/
theorem validate_structure_repairs (kvs lkvs : JObj) (c : JVal) :
    (List.lookup "candidate_details" kvs = none →
      List.lookup "candidate_details" (validate_structure kvs) = some (.obj [])) ∧
    (List.lookup "overall_result" kvs = none →
      List.lookup "overall_result" (validate_structure kvs) = some (.obj [])) ∧
    (List.lookup "document_info" kvs = none →
      List.lookup "document_info" (validate_structure kvs) = some (.obj [])) ∧
    ((∀ xs, List.lookup "subjects" kvs ≠ some (.arr xs)) →
      List.lookup "subjects" (validate_structure kvs) = some (.arr [])) ∧
    clampedOk (.obj (validate_structure kvs)) = true ∧
    (List.lookup "confidence" lkvs = some c → pyNum01 c = false →
      clampWalk (.obj lkvs) = .obj (clampEntries lkvs) ∧
      List.lookup "confidence" (clampEntries lkvs) = some (.num 0)) := by
  refine ⟨?_, ?_, ?_, ?_, ?_, ?_⟩
  · intro h
    have h1 : List.lookup "candidate_details" (insertSections kvs) = some (.obj []) := by
      rw [insertSections_eq]
      exact lookup_insStep_pres (lookup_insStep_pres (lookup_insStep_pres
        (lookup_insStep_same h)))
    have h2 : List.lookup "candidate_details" (coerceSubjects (insertSections kvs)) =
        some (.obj []) := by
      rw [lookup_coerce_other (by decide)]
      exact h1
    rcases lookup_validate_shape (by decide) h2 with h3 | h3 <;> rw [h3] <;> rfl
  · intro h
    have h1 : List.lookup "overall_result" (insertSections kvs) = some (.obj []) := by
      rw [insertSections_eq]
      refine lookup_insStep_pres (lookup_insStep_same ?_)
      rw [lookup_insStep_other (by decide), lookup_insStep_other (by decide)]
      exact h
    have h2 : List.lookup "overall_result" (coerceSubjects (insertSections kvs)) =
        some (.obj []) := by
      rw [lookup_coerce_other (by decide)]
      exact h1
    rcases lookup_validate_shape (by decide) h2 with h3 | h3 <;> rw [h3] <;> rfl
  · intro h
    have h1 : List.lookup "document_info" (insertSections kvs) = some (.obj []) := by
      rw [insertSections_eq]
      refine lookup_insStep_same ?_
      rw [lookup_insStep_other (by decide), lookup_insStep_other (by decide),
        lookup_insStep_other (by decide)]
      exact h
    have h2 : List.lookup "document_info" (coerceSubjects (insertSections kvs)) =
        some (.obj []) := by
      rw [lookup_coerce_other (by decide)]
      exact h1
    rcases lookup_validate_shape (by decide) h2 with h3 | h3 <;> rw [h3] <;> rfl
  · intro h
    have h2 : List.lookup "subjects" (coerceSubjects (insertSections kvs)) =
        some (.arr []) := by
      rw [lookup_coerce_subjects]
      cases hl : List.lookup "subjects" kvs with
      | none =>
        have h1 : List.lookup "subjects" (insertSections kvs) = some (.obj []) := by
          rw [insertSections_eq]
          refine lookup_insStep_pres (lookup_insStep_pres (lookup_insStep_same ?_))
          rw [lookup_insStep_other (by decide)]
          exact hl
        rw [h1]
        rfl
      | some v =>
        have h1 : List.lookup "subjects" (insertSections kvs) = some v := by
          rw [insertSections_eq]
          exact lookup_insStep_pres (lookup_insStep_pres (lookup_insStep_pres
            (lookup_insStep_pres hl)))
        rw [h1]
        have hna : isArr v = false := by
          cases v with
          | arr xs => exact absurd hl (h xs)
          | null => rfl
          | bool b => rfl
          | num q => rfl
          | nan => rfl
          | inf p => rfl
          | str s => rfl
          | obj o => rfl
        simp [Option.map, hna]
    rcases lookup_validate_shape (by decide) h2 with h3 | h3 <;> rw [h3] <;> rfl
  · rw [show clampedOk (.obj (validate_structure kvs)) =
        clampedOk (clampWalk (.obj (coerceSubjects (insertSections kvs)))) by
      rw [validate_structure_eq]]
    exact clampedOk_clampWalk _
  · intro h hbad
    have hck := hasConfKey_of_lookup h
    constructor
    · rw [clampWalk_obj, if_pos hck]
    · exact lookup_conf_clampEntries h hbad

/-- Counterexample to C6 as stated: the claim "every leaf whose confidence
is not a number in [0,1] has its confidence set to 0.0" is false. The
strict parser (`json.loads` with defaults) accepts the non-standard `NaN`
literal, producing a float NaN confidence; NaN then passes the repair
check `isinstance(conf, (int, float)) or conf < 0 or conf > 1` because it
IS a float and BOTH comparisons are false, so the repair pass leaves it
unclamped — yet NaN is not a number in `[0, 1]`. -/
theorem C6_counterexample :
    jsonLoads "\x7b\"candidate_details\": \x7b\"name\": \x7b\"value\": \"A\", \"confidence\": NaN\x7d\x7d\x7d" =
      some (.obj [("candidate_details", .obj [("name", .obj
        [("value", .str "A"), ("confidence", .nan)])])]) ∧
    validate_structure [("candidate_details", .obj [("name", .obj
        [("value", .str "A"), ("confidence", .nan)])])] =
      [("candidate_details", .obj [("name", .obj
        [("value", .str "A"), ("confidence", .nan)])]),
       ("subjects", .arr []), ("overall_result", .obj []),
       ("document_info", .obj [])] ∧
    isNum01 .nan = false :=
  ⟨by rfl, by rfl, by rfl⟩

/-- C6 (amended): the repair pass on a parsed record never fails and
guarantees: each missing required section is inserted as an empty mapping
(the `subjects` insertion is further coerced to the empty sequence, as is
any non-sequence `subjects` value); after the clamp walk every leaf
`confidence` passes the code's own check
`isinstance(conf, (int, float)) and 0 <= conf <= 1`; and a leaf whose
`confidence` fails that check (e.g. the string `"high"`) has it replaced
by `0.0` in place. The code's check is weaker than "a number in [0,1]": a
float NaN — reachable because `json.loads` accepts the `NaN` literal —
passes it (both comparisons are false) and survives the repair pass
unclamped. -/
theorem C6_repair_pass (kvs lkvs : JObj) (c : JVal) :
    (List.lookup "candidate_details" kvs = none →
      List.lookup "candidate_details" (validate_structure kvs) = some (.obj [])) ∧
    (List.lookup "overall_result" kvs = none →
      List.lookup "overall_result" (validate_structure kvs) = some (.obj [])) ∧
    (List.lookup "document_info" kvs = none →
      List.lookup "document_info" (validate_structure kvs) = some (.obj [])) ∧
    ((∀ xs, List.lookup "subjects" kvs ≠ some (.arr xs)) →
      List.lookup "subjects" (validate_structure kvs) = some (.arr [])) ∧
    clampedOk (.obj (validate_structure kvs)) = true ∧
    (List.lookup "confidence" lkvs = some c → pyNum01 c = false →
      clampWalk (.obj lkvs) = .obj (clampEntries lkvs) ∧
      List.lookup "confidence" (clampEntries lkvs) = some (.num 0)) :=
  validate_structure_repairs kvs lkvs c

/-- Witness for C6: a record containing only a malformed leaf (confidence
`"high"`) under `candidate_details`: all three other sections come back
empty, `subjects` becomes `[]`, and the leaf's confidence is clamped to
`0.0`. -/
theorem C6_witness :
    List.lookup "overall_result" (validate_structure
      [("candidate_details", .obj [("name", .obj
        [("value", .str "A"), ("confidence", .str "high")])])]) = some (.obj []) ∧
    List.lookup "subjects" (validate_structure
      [("candidate_details", .obj [("name", .obj
        [("value", .str "A"), ("confidence", .str "high")])])]) = some (.arr []) ∧
    List.lookup "confidence" (clampEntries
      [("value", .str "A"), ("confidence", .str "high")]) = some (.num 0) :=
  ⟨(C6_repair_pass [("candidate_details", .obj [("name", .obj
        [("value", .str "A"), ("confidence", .str "high")])])]
      [("value", .str "A"), ("confidence", .str "high")] (.str "high")).2.1 (by rfl),
   (C6_repair_pass [("candidate_details", .obj [("name", .obj
        [("value", .str "A"), ("confidence", .str "high")])])]
      [("value", .str "A"), ("confidence", .str "high")] (.str "high")).2.2.2.1
      (by intro xs h; cases h),
   ((C6_repair_pass [("candidate_details", .obj [("name", .obj
        [("value", .str "A"), ("confidence", .str "high")])])]
      [("value", .str "A"), ("confidence", .str "high")] (.str "high")).2.2.2.2.2
      (by rfl) (by rfl)).2⟩

/-- Counterexample to C9: a parsed record whose `candidate_details` is the
empty mapping. After the repair pass `candidate_details` is still empty:
the never-found field `name` is NOT represented as
`{value: null, confidence: 0.0}` — its key is simply absent, because the
repair pass only inserts missing sections, never missing leaves. -/
theorem C9_counterexample :
    validate_structure [("candidate_details", .obj [])] =
      [("candidate_details", .obj []), ("subjects", .arr []),
       ("overall_result", .obj []), ("document_info", .obj [])] ∧
    (match List.lookup "candidate_details"
        (validate_structure [("candidate_details", .obj [])]) with
     | some (.obj cd) => List.lookup "name" cd
     | _ => none) = none :=
  ⟨by rfl, by rfl⟩

/-- C9 (amended): after the repair pass none of the four required
top-level section keys is absent, and `subjects` is always a sequence;
the `{value: null, confidence: 0.0}` representation of never-found fields
is only requested of the provider by the prompt, not enforced by repair,
so leaf keys absent from the reply remain absent. -/
theorem C9_sections_never_absent (kvs : JObj) :
    (List.lookup "candidate_details" (validate_structure kvs)).isSome = true ∧
    (List.lookup "overall_result" (validate_structure kvs)).isSome = true ∧
    (List.lookup "document_info" (validate_structure kvs)).isSome = true ∧
    ∃ xs, List.lookup "subjects" (validate_structure kvs) = some (.arr xs) := by
  have hc6 := validate_structure_repairs kvs [] .null
  refine ⟨?_, ?_, ?_, ?_⟩
  · cases hl : List.lookup "candidate_details" kvs with
    | none => rw [hc6.1 hl]; rfl
    | some v =>
      have h1 : List.lookup "candidate_details" (insertSections kvs) = some v := by
        rw [insertSections_eq]
        exact lookup_insStep_pres (lookup_insStep_pres (lookup_insStep_pres
          (lookup_insStep_pres hl)))
      have h2 : List.lookup "candidate_details" (coerceSubjects (insertSections kvs)) =
          some v := by rw [lookup_coerce_other (by decide)]; exact h1
      rcases lookup_validate_shape (by decide) h2 with h3 | h3 <;> rw [h3] <;> rfl
  · cases hl : List.lookup "overall_result" kvs with
    | none => rw [hc6.2.1 hl]; rfl
    | some v =>
      have h1 : List.lookup "overall_result" (insertSections kvs) = some v := by
        rw [insertSections_eq]
        exact lookup_insStep_pres (lookup_insStep_pres (lookup_insStep_pres
          (lookup_insStep_pres hl)))
      have h2 : List.lookup "overall_result" (coerceSubjects (insertSections kvs)) =
          some v := by rw [lookup_coerce_other (by decide)]; exact h1
      rcases lookup_validate_shape (by decide) h2 with h3 | h3 <;> rw [h3] <;> rfl
  · cases hl : List.lookup "document_info" kvs with
    | none => rw [hc6.2.2.1 hl]; rfl
    | some v =>
      have h1 : List.lookup "document_info" (insertSections kvs) = some v := by
        rw [insertSections_eq]
        exact lookup_insStep_pres (lookup_insStep_pres (lookup_insStep_pres
          (lookup_insStep_pres hl)))
      have h2 : List.lookup "document_info" (coerceSubjects (insertSections kvs)) =
          some v := by rw [lookup_coerce_other (by decide)]; exact h1
      rcases lookup_validate_shape (by decide) h2 with h3 | h3 <;> rw [h3] <;> rfl
  · by_cases hex : ∃ xs, List.lookup "subjects" kvs = some (.arr xs)
    · obtain ⟨xs, hl⟩ := hex
      have h1 : List.lookup "subjects" (insertSections kvs) = some (.arr xs) := by
        rw [insertSections_eq]
        exact lookup_insStep_pres (lookup_insStep_pres (lookup_insStep_pres
          (lookup_insStep_pres hl)))
      have h2 : List.lookup "subjects" (coerceSubjects (insertSections kvs)) =
          some (.arr xs) := by
        rw [lookup_coerce_subjects, h1]
        rfl
      rcases lookup_validate_shape (by decide) h2 with h3 | h3
      · exact ⟨xs, h3⟩
      · rw [clampWalk] at h3
        exact ⟨clampWalkList xs, h3⟩
    · push_neg at hex
      exact ⟨[], hc6.2.2.2.1 hex⟩

/-! ## Lemmas about brace location (`_parse_llm_response`) -/

theorem firstIdx_none_iff {c : Char} : ∀ {l : List Char}, firstIdx c l = none ↔ c ∉ l
  | [] => by simp [firstIdx]
  | x :: rest => by
    rw [firstIdx]
    by_cases hx : (x == c) = true
    · rw [if_pos hx]
      rw [beq_iff_eq] at hx
      subst hx
      constructor
      · intro h; cases h
      · intro h; exact absurd (List.mem_cons_self _ _) h
    · rw [if_neg hx]
      rw [beq_iff_eq] at hx
      cases hf : firstIdx c rest with
      | none =>
        rw [Option.map_none']
        constructor
        · intro _
          rw [List.mem_cons]
          rintro (rfl | hm)
          · exact hx rfl
          · exact (firstIdx_none_iff.mp hf) hm
        · intro _; rfl
      | some i =>
        rw [Option.map_some']
        constructor
        · intro h; cases h
        · intro h
          exfalso
          apply h
          apply List.mem_cons_of_mem
          by_contra hm
          rw [← firstIdx_none_iff] at hm
          rw [hm] at hf
          cases hf

theorem firstIdx_lt_length {c : Char} :
    ∀ {l : List Char} {i : ℕ}, firstIdx c l = some i → i < l.length := by
  intro l
  induction l with
  | nil => intro i h; cases h
  | cons x rest ih =>
    intro i h
    rw [firstIdx] at h
    split at h
    · rw [Option.some.injEq] at h
      subst h
      simp
    · cases hf : firstIdx c rest with
      | none => rw [hf] at h; cases h
      | some i' =>
        rw [hf, Option.map_some', Option.some.injEq] at h
        subst h
        have := ih hf
        simp only [List.length_cons]
        omega

theorem dropWhile_firstIdx {c : Char} :
    ∀ {l : List Char} {i : ℕ}, firstIdx c l = some i →
      l.dropWhile (fun x => x != c) = l.drop i := by
  intro l
  induction l with
  | nil => intro i h; cases h
  | cons x rest ih =>
    intro i h
    rw [firstIdx] at h
    rw [List.dropWhile_cons]
    split at h
    · next hx =>
      rw [Option.some.injEq] at h
      subst h
      have hxf : (x != c) = false := by
        simp only [bne, hx, Bool.not_true]
      rw [hxf]
      simp
    · next hx =>
      cases hf : firstIdx c rest with
      | none => rw [hf] at h; cases h
      | some i' =>
        rw [hf, Option.map_some', Option.some.injEq] at h
        subst h
        have hxt : (x != c) = true := by
          simp only [bne]
          simpa using hx
        rw [hxt]
        rw [if_pos rfl, List.drop_succ_cons]
        exact ih hf

theorem firstIdx_take_of_lt {c : Char} :
    ∀ {l : List Char} {i n : ℕ}, firstIdx c l = some i → i < n →
      firstIdx c (l.take n) = some i := by
  intro l
  induction l with
  | nil => intro i n h _; cases h
  | cons x rest ih =>
    intro i n h hn
    rw [firstIdx] at h
    cases n with
    | zero => omega
    | succ m =>
      rw [List.take_succ_cons, firstIdx]
      split at h
      · next hx =>
        rw [if_pos hx]
        exact h
      · next hx =>
        rw [if_neg hx]
        cases hf : firstIdx c rest with
        | none => rw [hf] at h; cases h
        | some i' =>
          rw [hf, Option.map_some', Option.some.injEq] at h
          subst h
          rw [ih hf (by omega)]
          rfl

theorem no_mem_take_of_firstIdx {c : Char} :
    ∀ {l : List Char} {i n : ℕ}, firstIdx c l = some i → n ≤ i → c ∉ l.take n := by
  intro l
  induction l with
  | nil => intro i n h _; cases h
  | cons x rest ih =>
    intro i n h hn
    rw [firstIdx] at h
    cases n with
    | zero => simp
    | succ m =>
      rw [List.take_succ_cons]
      split at h
      · next hx =>
        rw [Option.some.injEq] at h
        omega
      · next hx =>
        cases hf : firstIdx c rest with
        | none => rw [hf] at h; cases h
        | some i' =>
          rw [hf, Option.map_some', Option.some.injEq] at h
          subst h
          intro hm
          rcases List.mem_cons.mp hm with heq | hmem
          · exact absurd (by simp [heq]) hx
          · exact absurd hmem (ih hf (by omega))

theorem dropWhile_all_not {c : Char} :
    ∀ {l : List Char}, c ∉ l → l.dropWhile (fun x => x != c) = [] := by
  intro l
  induction l with
  | nil => intro _; rfl
  | cons x rest ih =>
    intro h
    rw [List.dropWhile_cons]
    have hx : (x != c) = true := by
      simp only [bne_iff_ne]
      intro he
      exact h (he ▸ List.mem_cons_self x rest)
    rw [if_pos hx]
    exact ih (fun hm => h (List.mem_cons_of_mem x hm))

theorem slice_eq_boundedFragment {cs : List Char} {i k : ℕ}
    (hf : firstIdx '{' cs = some i) (hk : firstIdx '}' cs.reverse = some k) :
    (cs.drop i).take (cs.length - 1 - k + 1 - i) = boundedFragment cs := by
  unfold boundedFragment
  rw [dropWhile_firstIdx hf]
  have hi := firstIdx_lt_length hf
  have hkl := firstIdx_lt_length hk
  rw [List.length_reverse] at hkl
  have hlen : (cs.drop i).length = cs.length - i := List.length_drop i cs
  by_cases hcase : k < cs.length - i
  · have hrev : (cs.drop i).reverse = cs.reverse.take (cs.length - i) := List.reverse_drop
    have hdw : (cs.drop i).reverse.dropWhile (fun x => x != '}') = (cs.drop i).reverse.drop k := by
      rw [hrev]
      exact dropWhile_firstIdx (firstIdx_take_of_lt hk hcase)
    rw [hdw]
    apply List.reverse_injective
    rw [List.reverse_reverse, List.reverse_take, hlen]
    congr 1
    omega
  · have hnm : '}' ∉ (cs.drop i).reverse := by
      rw [List.reverse_drop]
      exact no_mem_take_of_firstIdx hk (by omega)
    rw [dropWhile_all_not hnm]
    have hz : cs.length - 1 - k + 1 - i = 0 := by omega
    rw [hz]
    simp

/-- C7: the response handler locates the first `{` and the last `}` of the
raw reply; if either is absent it fails with the `ResponseFormatError`
(`noJSON`) rather than returning a record, and otherwise its result is
exactly the strict parse (plus repair) of the substring bounded by those
two characters. -/
theorem C7_response_brace_extraction (response : String) :
    (('{' ∉ response.toList ∨ '}' ∉ response.toList) →
      parse_llm_response response = .error .noJSON) ∧
    ('{' ∈ response.toList → '}' ∈ response.toList →
      parse_llm_response response =
        strictParseRepair (String.mk (boundedFragment response.toList))) := by
  constructor
  · intro h
    unfold parse_llm_response
    dsimp only
    rcases h with h | h
    · rw [firstIdx_none_iff.mpr h]
    · have hnone : lastIdx '}' response.toList = none := by
        unfold lastIdx
        rw [firstIdx_none_iff.mpr (by rw [List.mem_reverse]; exact h)]
        rfl
      rw [hnone]
      cases firstIdx '{' response.toList <;> rfl
  · intro h1 h2
    cases hfi : firstIdx '{' response.toList with
    | none => exact absurd h1 (firstIdx_none_iff.mp hfi)
    | some i =>
      cases hfk : firstIdx '}' response.toList.reverse with
      | none =>
        exact absurd (by rw [List.mem_reverse]; exact h2) (firstIdx_none_iff.mp hfk)
      | some k =>
        unfold parse_llm_response
        dsimp only
        have hlast : lastIdx '}' response.toList = some (response.toList.length - 1 - k) := by
          unfold lastIdx
          rw [hfk, Option.map_some']
        rw [hfi, hlast]
        dsimp only
        rw [show (response.toList.drop i).take (response.toList.length - 1 - k + 1 - i) =
            boundedFragment response.toList from slice_eq_boundedFragment hfi hfk]
        rfl

/-- Witness for C7: a reply missing its closing brace fails with the
format error, and a reply with noise around the braces is parsed from
exactly the brace-bounded fragment. -/
theorem C7_witness :
    parse_llm_response ("xx\x7b\"a\": 1") = .error .noJSON ∧
    parse_llm_response ("noise \x7b\"candidate_details\": \x7b\x7d\x7d tail") =
      strictParseRepair
        (String.mk (boundedFragment ("noise \x7b\"candidate_details\": \x7b\x7d\x7d tail").toList)) :=
  ⟨(C7_response_brace_extraction ("xx\x7b\"a\": 1")).1 (Or.inr (by decide)),
   (C7_response_brace_extraction ("noise \x7b\"candidate_details\": \x7b\x7d\x7d tail")).2
     (by decide) (by decide)⟩

/-- Counterexample to C3: on a draft whose schema validation fails
(`roll_no` and `subjects` missing) but whose surviving `name` leaf has
confidence `2.0`, the validation step RAISES (pydantic rejects the
out-of-range confidence inside `_create_minimal_response`) instead of
returning a Minimal Valid Record. -/
theorem C3_counterexample :
    exceptOk (validate_extracted_data
      [("candidate_details", .obj [("name", .obj
        [("value", .str "A"), ("confidence", .num 2)])])]) = false := by decide

/-- C3 (amended): for every draft on which schema validation fails and
whose surviving `candidate_details`/`name`/`roll_no` partial values are
themselves pydantic-valid (`minimalSafe`), the validation step returns
the Minimal Valid Record: `name`/`roll_no` from the partial values with
fallback `"Unknown"`/`0.1`, subjects empty, other sections empty; in
particular a draft lacking `roll_no` yields `roll_no.confidence = 0.1`
with value `"Unknown"`. (When the surviving partial values fail field
validation, the fallback construction itself raises.) -/
theorem C3_minimal_valid_record (data : JObj)
    (hfail : exceptOk (extractedData_parse_obj data) = false)
    (hsafe : minimalSafe data = true) :
    ∃ nf rf : FieldWC,
      validate_extracted_data data = .ok
        { candidate_details := { name := nf, roll_no := rf },
          subjects := [], overall_result := {}, document_info := {} } ∧
      ((match jGetD data "candidate_details" (.obj []) with
        | .obj cd => List.lookup "roll_no" cd
        | _ => none) = none →
        rf = { value := .str "Unknown", confidence := 1/10 }) := by
  unfold validate_extracted_data
  cases hp : extractedData_parse_obj data with
  | ok r => rw [hp] at hfail; simp [exceptOk] at hfail
  | error e =>
    unfold minimalSafe at hsafe
    cases hcd : jGetD data "candidate_details" (.obj []) with
    | obj cd =>
      rw [hcd] at hsafe
      rw [Bool.and_eq_true] at hsafe
      obtain ⟨hn, hr⟩ := hsafe
      unfold leafMinimalSafe at hn hr
      cases hnl : jGetD cd "name" (.obj []) with
      | obj nkvs =>
        rw [hnl] at hn
        rw [Bool.and_eq_true] at hn
        cases hnv : vldValue (jGetD nkvs "value" (.str "Unknown")) with
        | error e2 => rw [hnv] at hn; simp [exceptOk] at hn
        | ok nv =>
          cases hnc : vldConfidence (jGetD nkvs "confidence" (.num (1/10))) with
          | error e2 => rw [hnc] at hn; simp [exceptOk] at hn
          | ok nc =>
            cases hrl : jGetD cd "roll_no" (.obj []) with
            | obj rkvs =>
              rw [hrl] at hr
              rw [Bool.and_eq_true] at hr
              cases hrv : vldValue (jGetD rkvs "value" (.str "Unknown")) with
              | error e2 => rw [hrv] at hr; simp [exceptOk] at hr
              | ok rv =>
                cases hrc : vldConfidence (jGetD rkvs "confidence" (.num (1/10))) with
                | error e2 => rw [hrc] at hr; simp [exceptOk] at hr
                | ok rc =>
                  refine ⟨{ value := nv, confidence := nc },
                          { value := rv, confidence := rc }, ?_, ?_⟩
                  · unfold create_minimal_response
                    rw [hcd]
                    rw [show asDictE (.obj cd) = .ok cd from rfl, exceptBind_ok]
                    rw [hnl]
                    rw [show asDictE (.obj nkvs) = .ok nkvs from rfl, exceptBind_ok]
                    rw [hrl]
                    rw [show asDictE (.obj rkvs) = .ok rkvs from rfl, exceptBind_ok]
                    rw [hnv, exceptBind_ok, hnc, exceptBind_ok,
                        hrv, exceptBind_ok, hrc, exceptBind_ok]
                  · intro hnone
                    dsimp only at hnone
                    have hempty : jGetD cd "roll_no" (.obj []) = .obj [] := by
                      unfold jGetD jLookup
                      rw [hnone]
                      rfl
                    rw [hempty] at hrl
                    rw [JVal.obj.injEq] at hrl
                    subst hrl
                    have hv : rv = .str "Unknown" := by
                      have : vldValue (.str "Unknown") = .ok (.str "Unknown") := rfl
                      rw [show jGetD ([] : JObj) "value" (.str "Unknown") =
                        .str "Unknown" from rfl] at hrv
                      rw [this] at hrv
                      exact (Except.ok.injEq _ _ ▸ hrv).symm
                    have hc : rc = 1/10 := by
                      rw [show jGetD ([] : JObj) "confidence" (.num (1/10)) =
                        .num (1/10) from rfl] at hrc
                      rw [show vldConfidence (.num (1/10)) = .ok (1/10) by
                        unfold vldConfidence
                        dsimp only
                        rw [if_pos (by norm_num)]] at hrc
                      exact (Except.ok.injEq _ _ ▸ hrc).symm
                    rw [hv, hc]
            | null => rw [hrl] at hr; cases hr
            | bool b => rw [hrl] at hr; cases hr
            | num q => rw [hrl] at hr; cases hr
            | nan => rw [hrl] at hr; cases hr
            | inf p => rw [hrl] at hr; cases hr
            | str s => rw [hrl] at hr; cases hr
            | arr xs => rw [hrl] at hr; cases hr
      | null => rw [hnl] at hn; cases hn
      | bool b => rw [hnl] at hn; cases hn
      | num q => rw [hnl] at hn; cases hn
      | nan => rw [hnl] at hn; cases hn
      | inf p => rw [hnl] at hn; cases hn
      | str s => rw [hnl] at hn; cases hn
      | arr xs => rw [hnl] at hn; cases hn
    | null => rw [hcd] at hsafe; cases hsafe
    | bool b => rw [hcd] at hsafe; cases hsafe
    | num q => rw [hcd] at hsafe; cases hsafe
    | nan => rw [hcd] at hsafe; cases hsafe
    | inf p => rw [hcd] at hsafe; cases hsafe
    | str s => rw [hcd] at hsafe; cases hsafe
    | arr xs => rw [hcd] at hsafe; cases hsafe

/-- Witness for C3 (amended): a draft with only a valid partial `name` and
no `roll_no` fails schema validation and degrades to the Minimal Valid
Record, with `roll_no = {value: "Unknown", confidence: 0.1}`. -/
theorem C3_witness :
    ∃ nf rf : FieldWC,
      validate_extracted_data
        [("candidate_details", .obj [("name", .obj
          [("value", .str "John"), ("confidence", .num (8/10))])])] = .ok
        { candidate_details := { name := nf, roll_no := rf },
          subjects := [], overall_result := {}, document_info := {} } ∧
      ((match jGetD [("candidate_details", .obj [("name", .obj
          [("value", .str "John"), ("confidence", .num (8/10))])])]
          "candidate_details" (.obj []) with
        | .obj cd => List.lookup "roll_no" cd
        | _ => none) = none →
        rf = { value := .str "Unknown", confidence := 1/10 }) :=
  C3_minimal_valid_record _ (by decide) (by decide)
